import Mathlib

/-!
Verification development for the graph-based workflow engine
(`backend/app/services`): shallow Lean embeddings of the string,
parsing, routing, compilation and execution functions of the source,
with theorems about the behaviour the documentation ascribes to them.

Conventions used throughout:
* Python strings are modelled as `List Char` internally, with `String`
  at the outer API.
* Python dicts are modelled as association lists with overwrite-on-insert
  semantics (`dictSet`); `dict.get` is `dictGet` / `dictGetD`.
* JSON data (and, more generally, plain Python values appearing in
  configuration and state) is modelled by the inductive `JVal`; numbers
  are restricted to integers.
* Fallible Python code is modelled by `Option`; handlers that catch all
  exceptions are total functions, with any external call that may raise
  represented by an explicit outcome argument.
-/

/-- Left and right curly-brace characters, named to keep them out of
string literals. -/
def lbrace : Char := '\x7b'

def rbrace : Char := '\x7d'

/-- Backtick character. -/
def btick : Char := '\x60'

/-- Three backticks: the fence delimiter looked for by the LLM-response
parser. -/
def fence3 : List Char := [btick, btick, btick]

/-- The fence delimiter followed by the `json` tag. -/
def fenceJson : List Char := fence3 ++ ['j', 's', 'o', 'n']

/-- Whitespace as recognised by Python's `str.strip`. -/
def isPyWs (c : Char) : Bool :=
  c = ' ' || c = '\t' || c = '\n' || c = '\r' || c = '\x0b' || c = '\x0c'

/-- Whitespace as recognised by the JSON grammar. -/
def isJsonWs (c : Char) : Bool :=
  c = ' ' || c = '\t' || c = '\n' || c = '\r'

/-- Model of Python `str.strip()`: drop leading and trailing whitespace. -/
def pyStripL (cs : List Char) : List Char :=
  ((cs.dropWhile isPyWs).reverse.dropWhile isPyWs).reverse

/-- Decide whether `pre` is an initial segment of `cs`. -/
def startsWithL : List Char → List Char → Bool
  | [], _ => true
  | _ :: _, [] => false
  | p :: ps, c :: cs => p = c && startsWithL ps cs

/-- First index `≥ i` at which `needle` occurs in `hay`, if any
(model of the search underlying Python `str.find`). -/
def findSubAux (needle : List Char) : List Char → Nat → Option Nat
  | hay, i =>
    if startsWithL needle hay then some i
    else
      match hay with
      | [] => none
      | _ :: t => findSubAux needle t (i + 1)

/-- Model of Python `str.find`: index of the first occurrence of
`needle` in `hay`, or `-1`. -/
def pyFind (hay needle : List Char) : Int :=
  match findSubAux needle hay 0 with
  | some i => (i : Int)
  | none => -1

/-- Model of Python's `needle in hay` substring test. -/
def pyContains (hay needle : List Char) : Bool :=
  pyFind hay needle ≠ -1

/-- Model of Python `str.find` with a start position: index of the first
occurrence of `needle` at or after `start`, or `-1`. -/
def pyFindFrom (hay needle : List Char) (start : Nat) : Int :=
  match findSubAux needle (hay.drop start) start with
  | some i => (i : Int)
  | none => -1

/-- Model of Python slicing `s[a:b]` for a non-negative start index and a
possibly negative stop index (negative counts from the end; the result is
empty when the clamped stop is at or before the start). -/
def pySlice (cs : List Char) (a : Nat) (b : Int) : List Char :=
  let stop : Nat := if b < 0 then (((cs.length : Int) + b).toNat) else b.toNat
  (cs.take stop).drop a

/-- Model of Python `str.lower` (ASCII case folding). -/
def pyLower (cs : List Char) : List Char := cs.map Char.toLower

/-! ### JSON-like values -/

/-- Plain data values: the model of JSON documents and of the Python
values held in node configurations and execution state.  Numbers are
restricted to integers. -/
inductive JVal where
  | null : JVal
  | bool (b : Bool) : JVal
  | int (n : Int) : JVal
  | str (s : String) : JVal
  | arr (xs : List JVal) : JVal
  | obj (fs : List (String × JVal)) : JVal

mutual

/-- Size measure used as parser fuel bound. -/
def jweight : JVal → Nat
  | .null | .bool _ | .int _ | .str _ => 1
  | .arr xs => 2 + jweightItems xs
  | .obj fs => 2 + jweightMembers fs

/-- Fuel measure of a list of array elements. -/
def jweightItems : List JVal → Nat
  | [] => 0
  | x :: t => (jweight x + 1) + jweightItems t

/-- Fuel measure of a list of object members. -/
def jweightMembers : List (String × JVal) → Nat
  | [] => 0
  | f :: t => (jweight f.2 + 1) + jweightMembers t

end

/-- Python/JSON truthiness of a plain value. -/
def jTruthy : JVal → Bool
  | .null => false
  | .bool b => b
  | .int n => n ≠ 0
  | .str s => s ≠ ""
  | .arr xs => !xs.isEmpty
  | .obj fs => !fs.isEmpty

/-! ### Association-list dictionaries -/

/-- Dictionary lookup (`dict.get(k)` with default `None`). -/
def dictGet {α : Type} (d : List (String × α)) (k : String) : Option α :=
  match d.find? (fun p => p.1 = k) with
  | some p => some p.2
  | none => none

/-- Dictionary lookup with default (`dict.get(k, dflt)`). -/
def dictGetD {α : Type} (d : List (String × α)) (k : String) (dflt : α) : α :=
  (dictGet d k).getD dflt

/-- Dictionary update `d[k] = v`: overwrite in place (first occurrence,
keeping its position, as a Python dict does), else append. -/
def dictSet {α : Type} : List (String × α) → String → α → List (String × α)
  | [], k, v => [(k, v)]
  | p :: t, k, v => if p.1 = k then (k, v) :: t else p :: dictSet t k v

/-- Keys of a dictionary, in order. -/
def dictKeys {α : Type} (d : List (String × α)) : List String := d.map (·.1)

/-! ### Decimal rendering of integers -/

/-- Decimal digit character for `d < 10`. -/
def digitCh (d : Nat) : Char :=
  match d with
  | 0 => '0' | 1 => '1' | 2 => '2' | 3 => '3' | 4 => '4'
  | 5 => '5' | 6 => '6' | 7 => '7' | 8 => '8' | _ => '9'

/-- Numeric value of a decimal digit character (`0` for non-digits). -/
def digitVal (c : Char) : Nat :=
  match c with
  | '0' => 0 | '1' => 1 | '2' => 2 | '3' => 3 | '4' => 4
  | '5' => 5 | '6' => 6 | '7' => 7 | '8' => 8 | '9' => 9
  | _ => 0

/-- Decimal-digit test. -/
def isDigitCh (c : Char) : Bool :=
  c = '0' || c = '1' || c = '2' || c = '3' || c = '4' ||
  c = '5' || c = '6' || c = '7' || c = '8' || c = '9'

/-- Decimal digit characters of a natural number, most significant first. -/
def natChars (n : Nat) : List Char :=
  if h : n < 10 then [digitCh n]
  else
    have : n / 10 < n := Nat.div_lt_self (by omega) (by omega)
    natChars (n / 10) ++ [digitCh (n % 10)]

/-- Decimal rendering of an integer. -/
def intChars (n : Int) : List Char :=
  if n < 0 then '-' :: natChars n.natAbs else natChars n.toNat

/-! ### JSON rendering -/

/-- Escape one character for inclusion in a JSON string literal
(double quote and backslash; other characters pass through). -/
def escCh (c : Char) : List Char :=
  if c = '"' then ['\\', '"']
  else if c = '\\' then ['\\', '\\']
  else [c]

/-- Escape a character list for a JSON string literal body. -/
def escChars (cs : List Char) : List Char := cs.flatMap escCh

/-- Quoted JSON string literal. -/
def renderStr (s : String) : List Char := '"' :: escChars s.data ++ ['"']

mutual

/-- Compact JSON rendering of a value (no whitespace). -/
def renderJ : JVal → List Char
  | .null => "null".data
  | .bool true => "true".data
  | .bool false => "false".data
  | .int n => intChars n
  | .str s => renderStr s
  | .arr xs => '[' :: renderItems xs ++ [']']
  | .obj fs => lbrace :: renderMembers fs ++ [rbrace]

/-- Comma-separated rendering of array elements. -/
def renderItems : List JVal → List Char
  | [] => []
  | [x] => renderJ x
  | x :: y :: t => renderJ x ++ ',' :: renderItems (y :: t)

/-- Comma-separated rendering of object members. -/
def renderMembers : List (String × JVal) → List Char
  | [] => []
  | [f] => renderStr f.1 ++ ':' :: renderJ f.2
  | f :: g :: t => renderStr f.1 ++ ':' :: renderJ f.2 ++ ',' :: renderMembers (g :: t)

end

/-! ### JSON parsing (model of the strict parse performed by the
standard-library JSON loader, restricted to integer numbers and to the
common string escapes). -/

/-- Drop leading JSON whitespace. -/
def skipWs (cs : List Char) : List Char := cs.dropWhile isJsonWs

/-- Decode one escape character of a JSON string literal. -/
def unescCh (c : Char) : Option Char :=
  if c = '"' then some '"'
  else if c = '\\' then some '\\'
  else if c = '/' then some '/'
  else if c = 'n' then some '\n'
  else if c = 't' then some '\t'
  else if c = 'r' then some '\r'
  else if c = 'b' then some '\x08'
  else if c = 'f' then some '\x0c'
  else none

/-- Parse the body of a JSON string literal up to the closing quote;
returns the decoded characters and the remaining input. -/
def parseStrBody (cs : List Char) : Option (List Char × List Char) :=
  match cs with
  | [] => none
  | c :: rest =>
    if c = '"' then some ([], rest)
    else if c = '\\' then
      match rest with
      | [] => none
      | e :: rest' =>
        match unescCh e with
        | none => none
        | some d =>
          match parseStrBody rest' with
          | none => none
          | some (body, rem) => some (d :: body, rem)
    else
      match parseStrBody rest with
      | none => none
      | some (body, rem) => some (c :: body, rem)

/-- Accumulate a run of decimal digits (greedy). -/
def digitsAcc (acc : Nat) : List Char → Nat × List Char
  | [] => (acc, [])
  | c :: rest =>
    if isDigitCh c then digitsAcc (acc * 10 + digitVal c) rest
    else (acc, c :: rest)

/-- Parse a non-empty run of decimal digits. -/
def parseNat (cs : List Char) : Option (Nat × List Char) :=
  match cs with
  | [] => none
  | c :: _ =>
    if isDigitCh c then some (digitsAcc 0 cs) else none

/-- Parse an optionally negated integer. -/
def parseIntL (cs : List Char) : Option (Int × List Char) :=
  match cs with
  | '-' :: rest =>
    match parseNat rest with
    | some (n, rem) => some (-(n : Int), rem)
    | none => none
  | _ =>
    match parseNat cs with
    | some (n, rem) => some ((n : Int), rem)
    | none => none

mutual

/-- Fueled recursive-descent JSON value parser. -/
def parseVal : Nat → List Char → Option (JVal × List Char)
  | 0, _ => none
  | fuel + 1, cs =>
    match skipWs cs with
    | [] => none
    | c :: rest =>
      if c = 'n' then
        match rest with
        | 'u' :: 'l' :: 'l' :: rem => some (.null, rem)
        | _ => none
      else if c = 't' then
        match rest with
        | 'r' :: 'u' :: 'e' :: rem => some (.bool true, rem)
        | _ => none
      else if c = 'f' then
        match rest with
        | 'a' :: 'l' :: 's' :: 'e' :: rem => some (.bool false, rem)
        | _ => none
      else if c = '"' then
        match parseStrBody rest with
        | some (body, rem) => some (.str (String.mk body), rem)
        | none => none
      else if c = '[' then
        match skipWs rest with
        | ']' :: rem => some (.arr [], rem)
        | rest' => parseItemsF fuel rest' []
      else if c = lbrace then
        match skipWs rest with
        | r :: rem =>
          if r = rbrace then some (.obj [], rem)
          else parseMembersF fuel (r :: rem) []
        | [] => none
      else if c = '-' || isDigitCh c then
        match parseIntL (c :: rest) with
        | some (n, rem) => some (.int n, rem)
        | none => none
      else none

/-- Fueled parser for the remaining elements of a JSON array. -/
def parseItemsF : Nat → List Char → List JVal → Option (JVal × List Char)
  | 0, _, _ => none
  | fuel + 1, cs, acc =>
    match parseVal fuel cs with
    | none => none
    | some (v, rest) =>
      match skipWs rest with
      | ',' :: rest' => parseItemsF fuel rest' (acc ++ [v])
      | ']' :: rest' => some (.arr (acc ++ [v]), rest')
      | _ => none

/-- Fueled parser for the remaining members of a JSON object. -/
def parseMembersF : Nat → List Char → List (String × JVal) →
    Option (JVal × List Char)
  | 0, _, _ => none
  | fuel + 1, cs, acc =>
    match skipWs cs with
    | '"' :: rest =>
      match parseStrBody rest with
      | none => none
      | some (key, rest') =>
        match skipWs rest' with
        | ':' :: rest'' =>
          match parseVal fuel rest'' with
          | none => none
          | some (v, rem) =>
            match skipWs rem with
            | ',' :: rem' => parseMembersF fuel rem' (dictSet acc (String.mk key) v)
            | r :: rem' =>
              if r = rbrace then some (.obj (dictSet acc (String.mk key) v), rem')
              else none
            | [] => none
        | _ => none
    | _ => none

end

/-- Model of the strict JSON load: parse a complete document, requiring
all input (up to trailing whitespace) to be consumed. -/
def jsonLoads (cs : List Char) : Option JVal :=
  match parseVal (2 * cs.length) cs with
  | some (v, rest) => if (skipWs rest).isEmpty then some v else none
  | none => none

/-- Well-formedness of a value as a Python JSON document: every object's
keys are pairwise distinct (objects model Python dicts). -/
def nodupKeysB : List String → Bool
  | [] => true
  | k :: t => (!t.contains k) && nodupKeysB t

mutual

/-- A value all of whose objects have pairwise-distinct keys. -/
def jwf : JVal → Bool
  | .null | .bool _ | .int _ | .str _ => true
  | .arr xs => jwfItems xs
  | .obj fs => nodupKeysB (fs.map (·.1)) && jwfMembers fs

/-- Well-formedness of array elements. -/
def jwfItems : List JVal → Bool
  | [] => true
  | x :: t => jwf x && jwfItems t

/-- Well-formedness of object member values. -/
def jwfMembers : List (String × JVal) → Bool
  | [] => true
  | f :: t => jwf f.2 && jwfMembers t

end

/-! ### The structured-output parser (`llm_transform_service.parse_llm_response`) -/

/-- Result record of the structured-output parser
(`LLMTransformOutput`): `canva_instructions` is a dict or `None`. -/
structure LLMTransformOutput where
  enhanced_text : String
  design_intent : String
  canva_instructions : Option (List (String × JVal))
  raw_response : String

/-- Candidate-extraction step of `parse_llm_response`: strip a fenced
code block if present (preferring a block tagged `json`), following the
source's find/slice arithmetic (a missing closing fence makes the end
index `-1`, which slices off the final character). -/
def extractCandidate (raw : List Char) : List Char :=
  if pyContains raw fenceJson then
    let start := ((pyFind raw fenceJson) + 7).toNat
    pyStripL (pySlice raw start (pyFindFrom raw fence3 start))
  else if pyContains raw fence3 then
    let start := ((pyFind raw fence3) + 3).toNat
    pyStripL (pySlice raw start (pyFindFrom raw fence3 start))
  else raw

/-- Validated string field extraction: mirrors
`parsed.get(key, "")` followed by the record's `str` field validation
(absent means `""`; a non-string value fails validation). -/
def vStrField (fs : List (String × JVal)) (k : String) : Option String :=
  match dictGet fs k with
  | none => some ""
  | some (.str s) => some s
  | some _ => none

/-- Validated `canva_instructions` extraction: mirrors
`parsed.get("canva_instructions")` with the record's `dict | None`
field validation. -/
def vInstrField (fs : List (String × JVal)) :
    Option (Option (List (String × JVal))) :=
  match dictGet fs "canva_instructions" with
  | none => some none
  | some .null => some none
  | some (.obj g) => some (some g)
  | some _ => none

/-- Fallback result of `parse_llm_response`: the whole stripped text
becomes `enhanced_text`. -/
def fallbackOut (raw : List Char) : LLMTransformOutput :=
  ⟨String.mk raw, "", none, String.mk raw⟩

/-- Model of `parse_llm_response`: strip, extract a fenced candidate,
and strictly parse it when it starts with a left brace; any parse or
field-validation failure falls back to the raw text. -/
def parse_llm_response (input : String) : LLMTransformOutput :=
  let raw := pyStripL input.data
  let cand := extractCandidate raw
  if startsWithL [lbrace] cand then
    match jsonLoads cand with
    | some (.obj fs) =>
      match vStrField fs "enhanced_text", vStrField fs "design_intent",
          vInstrField fs with
      | some a, some b, some c => ⟨a, b, c, String.mk raw⟩
      | _, _, _ => fallbackOut raw
    | _ => fallbackOut raw
  else fallbackOut raw

/-- The JSON object carrying a `(enhanced_text, design_intent,
canva_instructions)` triple. -/
def tripleObj (a b : String) (c : Option (List (String × JVal))) : JVal :=
  .obj [("enhanced_text", .str a), ("design_intent", .str b),
        ("canva_instructions", match c with | none => .null | some g => .obj g)]

/-- Encoding of a triple as a fenced ` ```json ` block, the shape the
round-trip property feeds back into `parse_llm_response`. -/
def encodeTriple (a b : String) (c : Option (List (String × JVal))) : String :=
  String.mk (fenceJson ++ '\n' :: renderJ (tripleObj a b c) ++ '\n' :: fence3)

/-- Propositional failure condition of the structured parse: the
extracted candidate does not start with a left brace, or does not parse
as a JSON document, or parses to something other than an object, or an
extracted field fails validation. -/
def ParseFails (input : String) : Prop :=
  let cand := extractCandidate (pyStripL input.data)
  startsWithL [lbrace] cand = false ∨
  jsonLoads cand = none ∨
  (∃ v, jsonLoads cand = some v ∧ ∀ fs, v ≠ .obj fs) ∨
  (∃ fs, jsonLoads cand = some (.obj fs) ∧
    (vStrField fs "enhanced_text" = none ∨ vStrField fs "design_intent" = none ∨
     vInstrField fs = none))

/-! ### Prompt interpolation (`graph_service.interpolate_prompt`) -/

/-- Word character as matched by the placeholder pattern. -/
def isWordCh (c : Char) : Bool := c.isAlphanum || c = '_'

/-- Rendering of one matched placeholder: the variable's value when the
key is bound, otherwise the matched text itself. -/
def phRender (vars : List (String × String)) (key : List Char) : List Char :=
  match dictGet vars (String.mk key) with
  | some v => v.data
  | none => lbrace :: lbrace :: key ++ [rbrace, rbrace]

/-- Match the tail of a placeholder: a run of word characters followed
by a closing double brace; returns the run and the remainder after the
closing braces. -/
def matchPh : List Char → Option (List Char × List Char)
  | [] => none
  | [_] => none
  | c :: c2 :: rest =>
    if isWordCh c then
      match matchPh (c2 :: rest) with
      | some (k, r) => some (c :: k, r)
      | none => none
    else if c = rbrace && c2 = rbrace then some ([], rest)
    else none

/-- Scanner implementing the regex substitution of `interpolate_prompt`:
at each position, a double brace followed by a non-empty word-character
run and a closing double brace is a placeholder match; everything else is
copied verbatim. -/
def interpAux (vars : List (String × String)) (cs : List Char) : List Char :=
  match cs with
  | [] => []
  | c :: rest =>
    if c = lbrace then
      match rest with
      | c2 :: rest2 =>
        if c2 = lbrace then
          match hmp : matchPh rest2 with
          | some (key, r3) =>
            if key.isEmpty then c :: interpAux vars (c2 :: rest2)
            else phRender vars key ++ interpAux vars r3
          | none => c :: interpAux vars (c2 :: rest2)
        else c :: interpAux vars (c2 :: rest2)
      | [] => [c]
    else c :: interpAux vars rest
  termination_by cs.length
  decreasing_by all_goals first
    | (simp only [List.length_cons]; omega)
    | (have hlen : ∀ (cs2 kk rr : List Char), matchPh cs2 = some (kk, rr) →
          rr.length < cs2.length := by
        intro cs2
        induction cs2 with
        | nil => intro kk rr hh; cases hh
        | cons c0 t0 ih =>
          intro kk rr hh
          rcases t0 with _ | ⟨c2x, t2⟩
          · cases hh
          · unfold matchPh at hh
            by_cases hw : isWordCh c0 = true
            · rw [if_pos hw] at hh
              rcases hm : matchPh (c2x :: t2) with _ | ⟨k0, r0⟩ <;>
                rw [hm] at hh
              · cases hh
              · injection hh with hp
                injection hp with h1 h2
                subst h2
                exact Nat.lt_succ_of_lt (ih _ _ hm)
            · rw [if_neg hw] at hh
              by_cases hb : (c0 = rbrace && c2x = rbrace) = true
              · rw [if_pos hb] at hh
                injection hh with hp
                injection hp with h1 h2
                subst h2
                simp only [List.length_cons]
                omega
              · rw [if_neg hb] at hh
                cases hh
       have := hlen _ _ _ hmp
       simp only [List.length_cons]
       omega)

/-- Model of `interpolate_prompt`: replace `\x7b\x7bvariable\x7d\x7d`
placeholders with values from the variables dict (a placeholder key is a
run of word characters; `.strip()` applied by the source to such a key is
the identity). -/
def interpolate_prompt (template : String) (vars : List (String × String)) :
    String :=
  String.mk (interpAux vars template.data)

/-! ### Messages and execution state -/

/-- Chat messages: the engine only distinguishes AI-originated messages
from everything else (`isinstance(m, AIMessage)`). -/
inductive Msg where
  | ai (content : String) : Msg
  | human (content : String) : Msg
deriving DecidableEq

/-- Message text. -/
def Msg.content : Msg → String
  | .ai s => s
  | .human s => s

/-- AI-origin test (`isinstance(m, AIMessage)`). -/
def Msg.isAI : Msg → Bool
  | .ai _ => true
  | .human _ => false

/-- Role tag used when the driver renders a message back to the caller. -/
def msgRole (m : Msg) : String := if m.isAI then "ai" else "human"

/-- Runtime state values: plain data, a message list, or a dict of
runtime values (as produced by the collect node). -/
inductive PyVal where
  | v (j : JVal) : PyVal
  | msgs (ms : List Msg) : PyVal
  | dict (d : List (String × PyVal)) : PyVal

/-- The shared execution state (`AgentState`): a partially populated
string-keyed mapping. -/
def PyState : Type := List (String × PyVal)

/-- The message list of a state (`state["messages"]`; the driver always
seeds this key). -/
def stateMsgs (st : PyState) : List Msg :=
  match dictGet st "messages" with
  | some (.msgs ms) => ms
  | _ => []

/-- The `input_data` dict of a state (`state.get("input_data", {})`). -/
def stateInputData (st : PyState) : List (String × JVal) :=
  match dictGet st "input_data" with
  | some (.v (.obj fs)) => fs
  | _ => []

/-- A state's value at a key when it is a plain string, with default
(`state.get(k, "")` where a missing or null value behaves as falsy). -/
def stateStrD (st : PyState) (k : String) (dflt : String) : String :=
  match dictGet st k with
  | some (.v (.str s)) => s
  | some (.v .null) => dflt
  | none => dflt
  | some _ => dflt

/-! ### Conditional router (`graph_service.create_condition_router`) -/

/-- Substring test on lowercased content, as used by the router. -/
def containsLower (content needle : String) : Bool :=
  pyContains (pyLower content.data) needle.data

/-- Model of the router closure produced by `create_condition_router`:
look at the last message of the state; return `"true"` exactly when it
exists, is AI-originated, and its lowercased text contains `"yes"` or
`"true"`; in every other case return `"false"`.  The condition config is
accepted and ignored, as in the source. -/
def condition_router (condition_config : List (String × JVal))
    (st : PyState) : String :=
  match (stateMsgs st).getLast? with
  | some m =>
    if m.isAI && (containsLower m.content "yes" || containsLower m.content "true")
    then "true" else "false"
  | none => "false"

/-- The most recent AI-originated message of a message list: the notion
the specification's routing sentence quantifies over. -/
def lastAIMsg (ms : List Msg) : Option Msg :=
  ms.reverse.find? (fun m => m.isAI)

/-! ### Step handlers (`llm_transform_service`, `canva_node_service`) -/

/-- A step handler: consumes the state, returns a partial state. -/
def Handler : Type := PyState → List (String × PyVal)

/-- The `value` sub-dict of a node config (`node_config.get("value", {})`;
assumed to be a dict when present). -/
def cfgValueObj (cfg : List (String × JVal)) : List (String × JVal) :=
  match dictGet cfg "value" with
  | some (.obj fs) => fs
  | _ => []

/-- Model of the handler produced by `create_input_text_node`: resolve
the text by Python `or`-chaining the request input text, the config's
`value.text` and the config's `text` (each falsy value falls through),
then write `input_text` and `input_type`. -/
def input_text_node (node_config : List (String × JVal)) : Handler :=
  fun st =>
    let input_data := stateInputData st
    let t1 : JVal := (dictGet input_data "text").getD .null
    let t2 : JVal := dictGetD (cfgValueObj node_config) "text" (.str "")
    let t3 : JVal := dictGetD node_config "text" (.str "")
    let text : JVal := if jTruthy t1 then t1 else if jTruthy t2 then t2 else t3
    [("input_text", .v text), ("input_type", .v (.str "text"))]

/-- The independent specification of the input-text fallback chain used
to state the corrected claim: first non-empty of request text, config
literal value text, config static text, defaulting to the empty string. -/
def fallbackChainSpec (reqText valText cfgText : Option String) : String :=
  match reqText with
  | some s =>
    if s ≠ "" then s
    else match valText with
      | some s' => if s' ≠ "" then s' else (cfgText.getD "")
      | none => cfgText.getD ""
  | none =>
    match valText with
    | some s' => if s' ≠ "" then s' else (cfgText.getD "")
    | none => cfgText.getD ""

/-- The known state keys the collect node gathers by default
(`ALL_STATE_KEYS`). -/
def ALL_STATE_KEYS : List String :=
  ["input_text", "input_type", "input_image_url", "input_image_base64",
   "enhanced_text", "design_intent", "canva_instructions", "llm_raw_response",
   "canva_design_id", "canva_design_url", "canva_export_url", "canva_success",
   "canva_error", "final_output"]

/-- Keys the collect node iterates over: the configured `include_keys`
when it is a non-empty list (a falsy value — absent or empty — selects
all known keys; `include_keys` is modelled as a list of strings when
present). -/
def keysToCheck (node_config : List (String × JVal)) : List String :=
  match dictGet node_config "include_keys" with
  | some (.arr (k :: ks)) =>
    (k :: ks).map (fun j => match j with | .str s => s | _ => "")
  | _ => ALL_STATE_KEYS

/-- A state value the collect node skips: `None` (also modelling an
absent key), the empty string, or the empty dict. -/
def excludedVal : PyVal → Bool
  | .v .null => true
  | .v (.str s) => s = ""
  | .v (.obj fs) => fs.isEmpty
  | .dict d => d.isEmpty
  | _ => false

/-- One collection step of the collect node: record the state's value at
the key unless it is excluded. -/
def collectStep (st : PyState) (acc : List (String × PyVal)) (k : String) :
    List (String × PyVal) :=
  match dictGet st k with
  | some pv => if excludedVal pv then acc else dictSet acc k pv
  | none => acc

/-- Whether the collect node keeps the state's value at a key. -/
def collectible (st : PyState) (k : String) : Bool :=
  match dictGet st k with
  | some pv => !excludedVal pv
  | none => false

/-- Model of the handler produced by `create_output_node`: collect every
non-excluded value of the checked keys into a dict and write it as the
single key `output_data`. -/
def output_node (node_config : List (String × JVal)) : Handler :=
  fun st =>
    [("output_data", .dict ((keysToCheck node_config).foldl (collectStep st) []))]

/-- Response shape of the design-tool adapter (`CanvaDesignResponse`). -/
structure DesignResp where
  success : Bool
  design_id : String
  design_url : String
  error : Option String
deriving DecidableEq

/-- Outcome of one adapter call that returns a design response: either a
value or a raised exception carrying its message text. -/
inductive CallOut where
  | ok (r : DesignResp) : CallOut
  | exc (msg : String) : CallOut
deriving DecidableEq

/-- Outcome of template resolution (`_resolve_template`). -/
inductive ResolveOut where
  | ok (templateId : String) : ResolveOut
  | exc (msg : String) : ResolveOut
deriving DecidableEq

/-- Outcome of the in-node `canva_service.export_design` call: a dict
whose `url` entry may be absent, or a raised exception. -/
inductive ExportCallOut where
  | ok (url : Option String) : ExportCallOut
  | exc (msg : String) : ExportCallOut
deriving DecidableEq

/-- The external design-tool calls a `CANVA_MCP` step may perform,
supplied as explicit outcomes. -/
structure CanvaCalls where
  createRes : CallOut
  resolveRes : ResolveOut
  modifyRes : CallOut
  exportRes : ExportCallOut
deriving DecidableEq

/-- An optional string as a Python value (`None` or the string). -/
def optStrVal : Option String → JVal
  | none => .null
  | some s => .str s

/-- The partial state `canva_mcp_node` returns from its exception
handler (note it carries no `canva_export_format` key). -/
def canvaExcState (msg : String) : List (String × PyVal) :=
  [("canva_design_id", .v (.str "")),
   ("canva_design_url", .v (.str "")),
   ("canva_export_url", .v .null),
   ("canva_success", .v (.bool false)),
   ("canva_error", .v (.str msg))]

/-- Model of the handler produced by `create_canva_mcp_node`: run the
configured operation through the adapter, optionally export, and encode
the outcome in the partial state; every exception is caught and encoded
as `canva_success=false` with the exception text as `canva_error`. -/
def canva_mcp_node (node_config : List (String × JVal)) (calls : CanvaCalls) :
    Handler :=
  fun _st =>
    let operation := match dictGet node_config "operation" with
      | some (.str s) => s | _ => "create"
    let output_format := match dictGet node_config "outputFormat" with
      | some (.str s) => s | _ => "link"
    let step : CallOut :=
      if operation = "create" then calls.createRes
      else
        match calls.resolveRes with
        | .exc m => .exc m
        | .ok _ => calls.modifyRes
    match step with
    | .exc m => canvaExcState m
    | .ok r =>
      let exported : ExportCallOut :=
        if output_format ≠ "link" && r.success then calls.exportRes
        else .ok none
      match exported with
      | .exc m => canvaExcState m
      | .ok export_url =>
        [("canva_design_id", .v (.str r.design_id)),
         ("canva_design_url", .v (.str r.design_url)),
         ("canva_export_url", .v (optStrVal export_url)),
         ("canva_export_format", .v (.str output_format)),
         ("canva_success", .v (.bool r.success)),
         ("canva_error", .v (optStrVal r.error))]

/-- Export node output type after config validation: a recognised
`output_type` is kept, any invalid config falls back to the defaults
(`link`). -/
def exportOutputTy (node_config : List (String × JVal)) : String :=
  match dictGet node_config "output_type" with
  | some (.str "pdf") => "pdf"
  | some (.str "image") => "image"
  | _ => "link"

/-- Result record of the export service (`OutputExportResult`). -/
structure ExportSvcResult where
  output_type : String
  url : String
  filename : Option String
  canva_edit_url : String
  expires_at : Option String
deriving DecidableEq

/-- Outcome of the `export_service.export_design` call. -/
inductive ExportSvcOut where
  | ok (r : ExportSvcResult) : ExportSvcOut
  | exc (msg : String) : ExportSvcOut
deriving DecidableEq

/-- Model of the handler produced by `create_output_export_node`: with
no design URL in state it reports a descriptive error inside
`final_output`; otherwise it calls the export service, catching any
exception into an error-bearing `final_output`. -/
def output_export_node (node_config : List (String × JVal))
    (exportCall : ExportSvcOut) : Handler :=
  fun st =>
    let design_url := stateStrD st "canva_design_url" ""
    if design_url = "" then
      [("final_output", .v (.obj
        [("type", .str (exportOutputTy node_config)),
         ("url", .str ""),
         ("error", .str "No design URL available")]))]
    else
      match exportCall with
      | .ok r =>
        [("final_output", .v (.obj
          [("type", .str r.output_type),
           ("url", .str r.url),
           ("filename", optStrVal r.filename),
           ("edit_url", .str r.canva_edit_url),
           ("expires_at", optStrVal r.expires_at)]))]
      | .exc m =>
        [("final_output", .v (.obj
          [("type", .str (exportOutputTy node_config)),
           ("url", .str design_url),
           ("error", .str m)]))]

/-! ### Graph definitions (`models/graph.py`) and the compiler
(`GraphExecutor._build_graph`) -/

/-- Node type tags dispatched by the compiler. -/
inductive NodeTy where
  | start | end_ | llm | llm_transform | input_text | input_image
  | canva_mcp | output_export | tool | condition | output
deriving DecidableEq

/-- Data attached to a graph node (display position omitted). -/
structure NodeData where
  label : String
  node_type : NodeTy
  config : List (String × JVal)
  value : Option (List (String × JVal))

/-- A node of the declared graph. -/
structure GNode where
  id : String
  data : NodeData

/-- An edge of the declared graph. -/
structure GEdge where
  id : String
  source : String
  target : String
  source_handle : Option String
deriving DecidableEq

/-- A declared graph. -/
structure GraphDef where
  name : String
  nodes : List GNode
  edges : List GEdge

/-- The engine's start sentinel handle. -/
def sentinelStart : String := "__start__"

/-- The engine's end sentinel handle. -/
def sentinelEnd : String := "__end__"

/-- The internal handle a node is mapped to: start/end nodes map to the
sentinels, every other node to its own id. -/
def sentHandle (n : GNode) : String :=
  match n.data.node_type with
  | .start => sentinelStart
  | .end_ => sentinelEnd
  | _ => n.id

/-- The node-id to internal-handle map built by the first loop of
`_build_graph`. -/
def nodeMapOf (nodes : List GNode) : List (String × String) :=
  nodes.foldl (fun m n => dictSet m n.id (sentHandle n)) []

/-- The nodes registered with the graph builder via `add_node` (every
node type except the sentinels and condition nodes, which get no
handler). -/
def addedNodes (nodes : List GNode) : List (String × NodeTy) :=
  nodes.filterMap (fun n =>
    match n.data.node_type with
    | .start | .end_ | .condition => none
    | t => some (n.id, t))

/-- One registered conditional transition: source handle, the condition
node's config (closed over by its router), and the branch table. -/
structure CondOp where
  src : String
  cfg : List (String × JVal)
  pathMap : List (String × String)

/-- The transitions registered with the graph builder. -/
structure BuildOps where
  direct : List (String × String)
  conds : List CondOp

/-- The branch table built for one condition node: every outgoing edge
with source handle `"true"` is entered under `"true"`, every other
outgoing edge under `"false"` (later edges overwrite earlier ones). -/
def pathMapOf (nm : List (String × String)) (condEdges : List GEdge) :
    List (String × String) :=
  condEdges.foldl
    (fun m ce =>
      let ct := dictGetD nm ce.target ce.target
      if ce.source_handle = some "true" then dictSet m "true" ct
      else dictSet m "false" ct) []

/-- Whether the source node of an edge is a declared condition node
(`source_node and source_node.data.node_type == NodeType.CONDITION`). -/
def isCondSource (nodes : List GNode) (srcId : String) : Bool :=
  match nodes.find? (fun n => n.id = srcId) with
  | some sn => decide (sn.data.node_type = NodeTy.condition)
  | none => false

/-- The declared config of the first node carrying the given id. -/
def nodeCfgOf (nodes : List GNode) (srcId : String) : List (String × JVal) :=
  match nodes.find? (fun n => n.id = srcId) with
  | some sn => sn.data.config
  | none => []

/-- Edge processing of `_build_graph` for one declared edge. -/
def buildEdgeStep (g : GraphDef) (nm : List (String × String))
    (ops : BuildOps) (e : GEdge) : BuildOps :=
  let source := dictGetD nm e.source e.source
  let target := dictGetD nm e.target e.target
  if isCondSource g.nodes e.source then
    let condEdges := g.edges.filter (fun ce => ce.source = e.source)
    if condEdges.length ≥ 2 then
      let pm := pathMapOf nm condEdges
      let cfg := nodeCfgOf g.nodes e.source
      if !pm.isEmpty && source != sentinelStart && source != sentinelEnd then
        { ops with conds := ops.conds ++ [{ src := source, cfg := cfg, pathMap := pm }] }
      else ops
    else ops
  else
    if source = sentinelStart then
      { ops with direct := ops.direct ++ [(sentinelStart, target)] }
    else if target = sentinelEnd then
      { ops with direct := ops.direct ++ [(source, sentinelEnd)] }
    else if source != sentinelStart && source != sentinelEnd &&
        target != sentinelStart && target != sentinelEnd then
      { ops with direct := ops.direct ++ [(source, target)] }
    else ops

/-- Model of the edge loop of `_build_graph`: the registered direct and
conditional transitions, in declaration order. -/
def buildGraphOps (g : GraphDef) : BuildOps :=
  g.edges.foldl (buildEdgeStep g (nodeMapOf g.nodes)) ⟨[], []⟩

/-! ### The execution driver (`GraphExecutor.execute`) -/

/-- Model of Python `repr` of a string (quote-escaping elided; used only
to render non-string inputs into the seed message). -/
def strRepr (s : String) : List Char :=
  Char.ofNat 39 :: s.data ++ [Char.ofNat 39]

mutual

/-- Model of Python `repr` on plain values. -/
def pyReprL : JVal → List Char
  | .null => ['N', 'o', 'n', 'e']
  | .bool true => ['T', 'r', 'u', 'e']
  | .bool false => ['F', 'a', 'l', 's', 'e']
  | .int n => intChars n
  | .str s => strRepr s
  | .arr xs => '[' :: pyReprItems xs ++ [']']
  | .obj fs => lbrace :: pyReprMembers fs ++ [rbrace]

/-- Repr of list elements. -/
def pyReprItems : List JVal → List Char
  | [] => []
  | [x] => pyReprL x
  | x :: y :: t => pyReprL x ++ ',' :: ' ' :: pyReprItems (y :: t)

/-- Repr of dict members. -/
def pyReprMembers : List (String × JVal) → List Char
  | [] => []
  | [f] => strRepr f.1 ++ ':' :: ' ' :: pyReprL f.2
  | f :: g :: t =>
    strRepr f.1 ++ ':' :: ' ' :: pyReprL f.2 ++ ',' :: ' ' ::
      pyReprMembers (g :: t)

end

/-- Model of Python `str()` on plain values. -/
def pyStr : JVal → String
  | .str s => s
  | .null => "None"
  | .bool true => "True"
  | .bool false => "False"
  | .int n => String.mk (intChars n)
  | .arr xs => String.mk (pyReprL (.arr xs))
  | .obj fs => String.mk (pyReprL (.obj fs))

/-- The initial state the driver seeds before invoking the compiled
graph. -/
def initState (input_data : List (String × JVal)) : PyState :=
  [("messages", .msgs [.human (pyStr (dictGetD input_data "message" (.str "")))]),
   ("current_node", .v (.str "")),
   ("input_data", .v (.obj input_data)),
   ("output_data", .v (.obj []))]

/-- Modelled from the spec: the engine's merge of one key of a step's
partial state into the running state — message-typed keys append, every
other key overwrites (the compiled-graph runtime is an external
collaborator; its merge policy is taken from the specification of the
state model). -/
def mergeOne (s : PyState) (kv : String × PyVal) : PyState :=
  if kv.1 = "messages" then
    match dictGet s "messages", kv.2 with
    | some (.msgs old), .msgs new => dictSet s "messages" (.msgs (old ++ new))
    | _, _ => dictSet s kv.1 kv.2
  else dictSet s kv.1 kv.2

/-- Merge a partial state into the running state, one key at a time. -/
def mergeUpd (st : PyState) (upd : List (String × PyVal)) : PyState :=
  upd.foldl mergeOne st

/-- Modelled from the spec: running a single linear path of step
handlers — each handler's partial state is merged before the next step
runs. -/
def runLinear (hs : List Handler) (st : PyState) : PyState :=
  hs.foldl (fun s h => mergeUpd s (h s)) st

/-- The messages rendered back to the caller by the driver. -/
def renderMsgsJ (ms : List Msg) : JVal :=
  .arr (ms.map fun m => .obj [("role", .str (msgRole m)), ("content", .str m.content)])

/-- Model of `GraphExecutor.execute` on a graph whose compiled form is a
single linear path of handlers: seed the initial state, run the path,
and return the plain mapping the source builds from the result — the
rendered messages and the accumulated `output_data`. -/
def executeLinear (hs : List Handler) (input_data : List (String × JVal)) :
    List (String × PyVal) :=
  let fin := runLinear hs (initState input_data)
  let od : PyVal := match dictGet fin "output_data" with
    | some pv => pv
    | none => .v (.obj [])
  [("messages", .v (renderMsgsJ (stateMsgs fin))), ("output_data", od)]

/-- The keys a list of handlers writes along a linear run, in order. -/
def writtenKeys (hs : List Handler) (st : PyState) : List String :=
  match hs with
  | [] => []
  | h :: t => dictKeys (h st) ++ writtenKeys t (mergeUpd st (h st))

/-! ### The background execution routine (`workflow_service.execute_workflow`) -/

/-- Lifecycle states of an Execution Record (`ThreadStatus`). -/
inductive ThreadStatus where
  | pending | running | completed | failed
deriving DecidableEq

/-- An Execution Record (`Thread` document; timestamps omitted). -/
structure ThreadRec where
  workflow_id : String
  status : ThreadStatus
  input_data : List (String × JVal)
  output_data : Option (List (String × PyVal))
  error_message : Option String

/-- A workflow document (fields the execution routine reads). -/
structure WorkflowRec where
  name : String
  graph_id : Option String

/-- The persisted documents the execution routine consults. -/
structure Db where
  threads : List (String × ThreadRec)
  workflows : List (String × WorkflowRec)
  graphs : List (String × GraphDef)

/-- Outcome of the executor invocation performed by the routine. -/
inductive ExecOutcome where
  | ok (result : List (String × PyVal)) : ExecOutcome
  | exc (msg : String) : ExecOutcome

/-- Result of the background routine: the final saved Execution Record
(absent when the record itself was missing) and whether the graph
executor was ever built and invoked. -/
structure WfRunResult where
  thread : Option ThreadRec
  executorInvoked : Bool

/-- Mark an Execution Record completed with the executor's result. -/
def completeThread (th : ThreadRec) (res : List (String × PyVal)) : ThreadRec :=
  { th with status := ThreadStatus.completed, output_data := some res }

/-- Mark an Execution Record failed with a message. -/
def failThread (th : ThreadRec) (msg : String) : ThreadRec :=
  { th with status := ThreadStatus.failed, error_message := some msg }

/-- Model of `execute_workflow`: load the record and its workflow,
fail the record early on structural errors (missing workflow, unset
graph id, missing graph) without invoking the executor, otherwise run
the executor and store its outcome. -/
def execute_workflow (db : Db) (execResult : ExecOutcome)
    (thread_id : String) : WfRunResult :=
  match dictGet db.threads thread_id with
  | none => ⟨none, false⟩
  | some th =>
    match dictGet db.workflows th.workflow_id with
    | none => ⟨some (failThread th "Workflow not found"), false⟩
    | some wf =>
      let gidFalsy : Bool := match wf.graph_id with
        | none => true
        | some s => s = ""
      if gidFalsy then
        ⟨some (failThread th "Workflow has no graph configuration"), false⟩
      else
        match dictGet db.graphs (wf.graph_id.getD "") with
        | none => ⟨some (failThread th "Graph not found"), false⟩
        | some _g =>
          match execResult with
          | .ok res => ⟨some (completeThread th res), true⟩
          | .exc m => ⟨some (failThread th m), true⟩

/-! ### Specification-side notions used to state the claims -/

/-- A token of an interpolation template: a literal character or a
placeholder with its key. -/
inductive Tok where
  | lit (c : Char) : Tok
  | ph (key : List Char) : Tok

/-- Declarative tokenisation of a template into literal characters and
placeholders, scanning exactly like the regex engine: at each position a
placeholder is a double brace, a non-empty word-character run, and a
closing double brace. -/
def tokenize (cs : List Char) : List Tok :=
  match cs with
  | [] => []
  | c :: rest =>
    if c = lbrace then
      match rest with
      | c2 :: rest2 =>
        if c2 = lbrace then
          match hmp : matchPh rest2 with
          | some (key, r3) =>
            if key.isEmpty then .lit c :: tokenize (c2 :: rest2)
            else .ph key :: tokenize r3
          | none => .lit c :: tokenize (c2 :: rest2)
        else .lit c :: tokenize (c2 :: rest2)
      | [] => [.lit c]
    else .lit c :: tokenize rest
  termination_by cs.length
  decreasing_by all_goals first
    | (simp only [List.length_cons]; omega)
    | (have hlen : ∀ (cs2 kk rr : List Char), matchPh cs2 = some (kk, rr) →
          rr.length < cs2.length := by
        intro cs2
        induction cs2 with
        | nil => intro kk rr hh; cases hh
        | cons c0 t0 ih =>
          intro kk rr hh
          rcases t0 with _ | ⟨c2x, t2⟩
          · cases hh
          · unfold matchPh at hh
            by_cases hw : isWordCh c0 = true
            · rw [if_pos hw] at hh
              rcases hm : matchPh (c2x :: t2) with _ | ⟨k0, r0⟩ <;>
                rw [hm] at hh
              · cases hh
              · injection hh with hp
                injection hp with h1 h2
                subst h2
                exact Nat.lt_succ_of_lt (ih _ _ hm)
            · rw [if_neg hw] at hh
              by_cases hb : (c0 = rbrace && c2x = rbrace) = true
              · rw [if_pos hb] at hh
                injection hh with hp
                injection hp with h1 h2
                subst h2
                simp only [List.length_cons]
                omega
              · rw [if_neg hb] at hh
                cases hh
       have := hlen _ _ _ hmp
       simp only [List.length_cons]
       omega)

/-- The original text of a token. -/
def tokOrig : Tok → List Char
  | .lit c => [c]
  | .ph key => lbrace :: lbrace :: key ++ [rbrace, rbrace]

/-- The substituted text of a token under a variables dict: a bound
placeholder becomes its value, an unbound one stays as matched text. -/
def tokSubst (vars : List (String × String)) : Tok → List Char
  | .lit c => [c]
  | .ph key => phRender vars key

/-- Well-formedness of a token: a placeholder key is a non-empty run of
word characters. -/
def tokWF : Tok → Bool
  | .lit _ => true
  | .ph key => !key.isEmpty && key.all isWordCh

/-- Outgoing edges of a node, in declaration order. -/
def outEdgesOf (g : GraphDef) (nid : String) : List GEdge :=
  g.edges.filter (fun e => e.source = nid)

/-- Resolve an edge endpoint through the sentinel map. -/
def resolveT (nm : List (String × String)) (t : String) : String :=
  dictGetD nm t t

/-- The resolved target of the last outgoing edge labelled `"true"`. -/
def lastTrueTarget (g : GraphDef) (nid : String) : Option String :=
  (((outEdgesOf g nid).filter
      (fun e => decide (e.source_handle = some "true"))).getLast?).map
    (fun e => resolveT (nodeMapOf g.nodes) e.target)

/-- The resolved target of the last outgoing edge not labelled
`"true"`. -/
def lastFalseTarget (g : GraphDef) (nid : String) : Option String :=
  (((outEdgesOf g nid).filter
      (fun e => !decide (e.source_handle = some "true"))).getLast?).map
    (fun e => resolveT (nodeMapOf g.nodes) e.target)

/-- The conditional transitions registered for a given source handle. -/
def condOpsFor (g : GraphDef) (nid : String) : List CondOp :=
  (buildGraphOps g).conds.filter (fun c => c.src = nid)

/-- The direct transitions registered from a given source handle. -/
def directFrom (g : GraphDef) (nid : String) : List (String × String) :=
  (buildGraphOps g).direct.filter (fun p => p.1 = nid)

/-- The dict collected into `output_data` by a collect-node result. -/
def collectedOf (upd : List (String × PyVal)) : List (String × PyVal) :=
  match upd with
  | [("output_data", .dict d)] => d
  | _ => []

/-! ### Concrete fixtures used by counterexamples and witnesses -/

/-- A graph with one condition node that has a single outgoing edge. -/
def gphOneCondEdge : GraphDef :=
  ⟨"g",
   [⟨"c", ⟨"c", NodeTy.condition, [], none⟩⟩, ⟨"a", ⟨"a", NodeTy.tool, [], none⟩⟩],
   [⟨"e1", "c", "a", none⟩]⟩

/-- A graph routing a condition node to two labelled branches. -/
def gphTwoBranches : GraphDef :=
  ⟨"g",
   [⟨"s", ⟨"s", NodeTy.start, [], none⟩⟩,
    ⟨"c", ⟨"c", NodeTy.condition, [], none⟩⟩,
    ⟨"a", ⟨"a", NodeTy.tool, [], none⟩⟩,
    ⟨"b", ⟨"b", NodeTy.tool, [], none⟩⟩,
    ⟨"e", ⟨"e", NodeTy.end_, [], none⟩⟩],
   [⟨"e0", "s", "c", none⟩,
    ⟨"e1", "c", "a", some "true"⟩,
    ⟨"e2", "c", "b", some "false"⟩,
    ⟨"e3", "a", "e", none⟩]⟩

/-- A state whose last message is human but whose most recent
AI-originated message affirms. -/
def stAiThenHuman : PyState :=
  [("messages", .msgs [.ai "yes", .human "done"])]

/-- A state carrying an empty request text. -/
def stEmptyReqText : PyState :=
  [("input_data", .v (.obj [("text", .str "")]))]

/-- A config whose literal value text is non-empty. -/
def cfgValCfg : List (String × JVal) :=
  [("value", .obj [("text", .str "cfg")])]

/-- An Execution Record fixture. -/
def thFixture : ThreadRec := ⟨"w1", .pending, [], none, none⟩

/-- A workflow fixture with no graph assigned. -/
def wfFixtureNoGraph : WorkflowRec := ⟨"wf", none⟩

/-- A database fixture whose only workflow has no graph assigned. -/
def dbFixture : Db := ⟨[("t1", thFixture)], [("w1", wfFixtureNoGraph)], []⟩

/-- A static-text input node config. -/
def cfgStaticText : List (String × JVal) := [("text", .str "static")]

/-- An output-node config with an empty include list. -/
def cfgEmptyInclude : List (String × JVal) := [("include_keys", .arr [])]

/-- A state carrying only a non-empty `input_text`. -/
def stOneKey : PyState := [("input_text", .v (.str "hi"))]

/-- A create-operation config for the design node. -/
def cfgCreateOp : List (String × JVal) := [("operation", .str "create")]

/-- Adapter calls whose create raises with an empty message. -/
def callsExcEmpty : CanvaCalls :=
  ⟨.exc "", .ok "t", .ok ⟨true, "", "", none⟩, .ok none⟩

/-- Adapter calls whose create raises with a message. -/
def callsExcBoom : CanvaCalls :=
  ⟨.exc "boom", .ok "t", .ok ⟨true, "", "", none⟩, .ok none⟩

/-- Adapter calls whose create reports failure. -/
def callsCreateFailed : CanvaCalls :=
  ⟨.ok ⟨false, "", "", some "remote failure"⟩, .ok "t",
   .ok ⟨true, "", "", none⟩, .ok none⟩

/-- Characters that may legally follow a rendered JSON value inside a
larger rendered document (or end of input). -/
def sepHead : List Char → Bool
  | [] => true
  | c :: _ => c = ',' || c = ']' || c = rbrace

/-- No occurrence of `needle` starts inside `l` when `l` is followed by
`tail`. -/
def noHit (needle : List Char) : List Char → List Char → Bool
  | [], _ => true
  | c :: t, tail => !startsWithL needle (c :: (t ++ tail)) && noHit needle t tail

/-- The `canva_instructions` value of the encoded triple (`None` becomes
JSON `null`, a dict becomes the JSON object). -/
def instrVal (c : Option (List (String × JVal))) : JVal :=
  match c with | none => .null | some g => .obj g

/-! ## Theorems -/

/-! ### Dictionary lemmas -/

theorem dictGet_nil {α : Type} (k : String) :
    dictGet ([] : List (String × α)) k = none := rfl

theorem dictGet_cons {α : Type} (p : String × α) (t : List (String × α))
    (k : String) :
    dictGet (p :: t) k = if p.1 = k then some p.2 else dictGet t k := by
  by_cases h : p.1 = k <;> simp [dictGet, List.find?, h]

theorem dictGet_dictSet {α : Type} (d : List (String × α)) (k k' : String)
    (v : α) :
    dictGet (dictSet d k v) k' = if k' = k then some v else dictGet d k' := by
  induction d with
  | nil =>
    show dictGet [(k, v)] k' = _
    rw [dictGet_cons]
    by_cases h : k' = k
    · subst h; simp
    · simp only [if_neg h, if_neg (fun hh => h (Eq.symm hh)), dictGet_nil]
  | cons p t ih =>
    by_cases hp : p.1 = k
    · show dictGet (if p.1 = k then (k, v) :: t else p :: dictSet t k v) k' = _
      rw [if_pos hp, dictGet_cons]
      by_cases h : k' = k
      · subst h; simp
      · simp only [if_neg (fun hh => h (Eq.symm hh)), if_neg h]
        rw [dictGet_cons, if_neg (hp ▸ fun hh => h (Eq.symm hh))]
    · show dictGet (if p.1 = k then (k, v) :: t else p :: dictSet t k v) k' = _
      rw [if_neg hp, dictGet_cons, ih, dictGet_cons]
      by_cases hpk : p.1 = k'
      · have : ¬k' = k := fun hh => hp (hpk.trans hh)
        simp [hpk, this]
      · simp [hpk]

theorem dictKeys_cons {α : Type} (p : String × α) (t : List (String × α)) :
    dictKeys (p :: t) = p.1 :: dictKeys t := rfl

theorem mem_dictKeys_dictSet {α : Type} (d : List (String × α)) (k k' : String)
    (v : α) :
    k' ∈ dictKeys (dictSet d k v) ↔ k' = k ∨ k' ∈ dictKeys d := by
  induction d with
  | nil => simp [dictSet, dictKeys]
  | cons p t ih =>
    show k' ∈ dictKeys (if p.1 = k then (k, v) :: t else p :: dictSet t k v) ↔ _
    by_cases hp : p.1 = k
    · rw [if_pos hp, dictKeys_cons, dictKeys_cons]
      simp only [List.mem_cons]
      rw [hp]
      tauto
    · rw [if_neg hp, dictKeys_cons, dictKeys_cons]
      simp only [List.mem_cons]
      rw [ih]
      tauto

theorem dictSet_of_not_mem {α : Type} (d : List (String × α)) (k : String)
    (v : α) (h : ¬k ∈ dictKeys d) :
    dictSet d k v = d ++ [(k, v)] := by
  induction d with
  | nil => rfl
  | cons p t ih =>
    rw [dictKeys_cons, List.mem_cons] at h
    push_neg at h
    show (if p.1 = k then (k, v) :: t else p :: dictSet t k v) = _
    rw [if_neg (fun hh => h.1 (Eq.symm hh)), ih h.2]
    simp

theorem mem_dictKeys_mergeOne (s : PyState) (kv : String × PyVal) (k' : String) :
    k' ∈ dictKeys (mergeOne s kv) ↔ k' = kv.1 ∨ k' ∈ dictKeys s := by
  obtain ⟨kk, vv⟩ := kv
  show k' ∈ dictKeys (mergeOne s (kk, vv)) ↔ k' = kk ∨ k' ∈ dictKeys s
  unfold mergeOne
  by_cases h : kk = "messages"
  · subst h
    rw [if_pos rfl]
    rcases hg : dictGet s "messages" with _ | pv
    · cases vv <;> exact mem_dictKeys_dictSet s "messages" k' _
    · cases pv <;> cases vv <;> exact mem_dictKeys_dictSet s "messages" k' _
  · rw [if_neg h]
    exact mem_dictKeys_dictSet s kk k' vv

theorem mem_dictKeys_mergeUpd (st : PyState) (upd : List (String × PyVal))
    (k : String) :
    k ∈ dictKeys (mergeUpd st upd) ↔ k ∈ dictKeys st ∨ k ∈ dictKeys upd := by
  induction upd generalizing st with
  | nil => simp [mergeUpd, dictKeys]
  | cons kv t ih =>
    show k ∈ dictKeys (mergeUpd (mergeOne st kv) t) ↔ _
    rw [ih, mem_dictKeys_mergeOne]
    simp only [dictKeys, List.map_cons, List.mem_cons]
    tauto

theorem mem_dictKeys_runLinear (hs : List Handler) (st : PyState) (k : String) :
    k ∈ dictKeys (runLinear hs st) ↔ k ∈ dictKeys st ∨ k ∈ writtenKeys hs st := by
  induction hs generalizing st with
  | nil => simp [runLinear, writtenKeys]
  | cons h t ih =>
    show k ∈ dictKeys (runLinear t (mergeUpd st (h st))) ↔ _
    rw [ih, mem_dictKeys_mergeUpd]
    simp only [writtenKeys, List.mem_append]
    tauto

/-! ### C1: what the driver returns -/

/-- C1, counterexample: on the linear graph whose single step is an
input-text node, the node writes the key `input_text`, yet the mapping
`execute` returns does not contain it — the returned mapping is not the
union of the keys written on the path. -/
theorem execute_not_union_of_written_keys :
    "input_text" ∈ writtenKeys [input_text_node [("text", JVal.str "hi")]]
      (initState []) ∧
    ¬"input_text" ∈ dictKeys (executeLinear [input_text_node
      [("text", JVal.str "hi")]] []) := by
  constructor
  · show "input_text" ∈ ["input_text", "input_type"]
    simp
  · show ¬"input_text" ∈ ["messages", "output_data"]
    simp

/-- C1 (amended): `execute` returns a plain mapping with exactly the two
keys `messages` and `output_data`; the full accumulated state reached at
the end of the path holds exactly the union of the initial state's keys
and the keys written by the steps along the path. -/
theorem executeLinear_projection_and_state_keys (hs : List Handler)
    (input_data : List (String × JVal)) :
    dictKeys (executeLinear hs input_data) = ["messages", "output_data"] ∧
    ∀ k, k ∈ dictKeys (runLinear hs (initState input_data)) ↔
      k ∈ dictKeys (initState input_data) ∨
      k ∈ writtenKeys hs (initState input_data) :=
  ⟨rfl, fun k => mem_dictKeys_runLinear hs (initState input_data) k⟩

/-! ### C2: the conditional router -/

/-- C2, counterexample: the state's most recent AI-originated message
affirms (`"yes"`), yet because the most recent message overall is
human-originated the router returns `"false"` — refuting the claim that
routing looks at the most recent AI-originated message. -/
theorem condition_router_ignores_earlier_ai :
    condition_router [] stAiThenHuman = "false" ∧
    lastAIMsg (stateMsgs stAiThenHuman) = some (.ai "yes") ∧
    containsLower (Msg.ai "yes").content "yes" = true := ⟨rfl, rfl, rfl⟩

/-- C2 (amended): the router returns `"true"` iff the most recent
message overall exists, is AI-originated, and its lowercased text
contains `"yes"` or `"true"`; in every other case — including when the
most recent message is not AI-originated, whatever earlier AI messages
say — it returns `"false"`. -/
theorem condition_router_last_message (cfg : List (String × JVal))
    (st : PyState) :
    (condition_router cfg st = "true" ↔
      ∃ m, (stateMsgs st).getLast? = some m ∧ m.isAI = true ∧
        (containsLower m.content "yes" = true ∨
         containsLower m.content "true" = true)) ∧
    (condition_router cfg st = "true" ∨ condition_router cfg st = "false") := by
  unfold condition_router
  rcases (stateMsgs st).getLast? with _ | m
  · simp
  · show ((if (m.isAI && (containsLower m.content "yes" ||
        containsLower m.content "true")) = true then "true" else "false") =
        "true" ↔ _) ∧
      ((if (m.isAI && (containsLower m.content "yes" ||
        containsLower m.content "true")) = true then "true" else "false") =
        "true" ∨
       (if (m.isAI && (containsLower m.content "yes" ||
        containsLower m.content "true")) = true then "true" else "false") =
        "false")
    by_cases hA : (m.isAI && (containsLower m.content "yes" ||
        containsLower m.content "true")) = true
    · rw [if_pos hA]
      simp only [Bool.and_eq_true, Bool.or_eq_true] at hA
      constructor
      · constructor
        · intro _
          exact ⟨m, rfl, hA.1, hA.2⟩
        · intro _
          rfl
      · exact Or.inl rfl
    · rw [if_neg hA]
      refine ⟨⟨fun hcontra => absurd hcontra (by simp), ?_⟩, Or.inr rfl⟩
      rintro ⟨m', hm', hai, hc⟩
      injection hm' with hmm
      subst hmm
      exact absurd (by rw [hai]; simpa using hc) hA

/-! ### C7: the input-text handler -/

/-- C7, counterexample: the request input carries the key `text` with an
empty value, so the claim's fallback chain stops at the request text and
yields the empty string; the handler instead falls through to the
config's literal value text `"cfg"`. -/
theorem input_text_empty_request_falls_through :
    input_text_node cfgValCfg stEmptyReqText =
      [("input_text", .v (.str "cfg")), ("input_type", .v (.str "text"))] ∧
    dictGet (stateInputData stEmptyReqText) "text" = some (.str "") :=
  ⟨rfl, rfl⟩

/-- C7 (amended): the handler never raises, always writes exactly
`input_text` and `input_type="text"`, and resolves `input_text` as the
first non-empty entry of the chain request text → config literal value
text → config static text, defaulting to the empty string (a present but
empty entry falls through; the final result may be empty). -/
theorem input_text_node_fallback (node_config : List (String × JVal))
    (st : PyState) (rt vt ct : Option String)
    (hreq : dictGet (stateInputData st) "text" = Option.map JVal.str rt)
    (hval : dictGet (cfgValueObj node_config) "text" = Option.map JVal.str vt)
    (hcfg : dictGet node_config "text" = Option.map JVal.str ct) :
    input_text_node node_config st =
      [("input_text", .v (.str (fallbackChainSpec rt vt ct))),
       ("input_type", .v (.str "text"))] := by
  unfold input_text_node
  rcases rt with _ | sr <;> rcases vt with _ | sv <;> rcases ct with _ | sc <;>
    simp_all [dictGetD, jTruthy, fallbackChainSpec] <;>
    (try by_cases hr : sr = "") <;> (try by_cases hv : sv = "") <;>
    simp_all

/-- C7 witness: a config with only static text resolves to it. -/
theorem input_text_node_fallback_witness :
    input_text_node cfgStaticText [] =
      [("input_text", .v (.str (fallbackChainSpec none none (some "static")))),
       ("input_type", .v (.str "text"))] :=
  input_text_node_fallback cfgStaticText [] none none (some "static") rfl rfl rfl

/-! ### C8: execution with an unset graph id -/

/-- C8: when the Execution Record and its workflow exist but the
workflow's graph id is unset, the background routine saves the record as
failed with the message naming the missing graph configuration and
returns without ever building or invoking the executor. -/
theorem execute_workflow_missing_graph_config (db : Db) (er : ExecOutcome)
    (tid : String) (th : ThreadRec) (wf : WorkflowRec)
    (hth : dictGet db.threads tid = some th)
    (hwf : dictGet db.workflows th.workflow_id = some wf)
    (hg : wf.graph_id = none) :
    (execute_workflow db er tid).thread =
      some (failThread th "Workflow has no graph configuration") ∧
    (execute_workflow db er tid).executorInvoked = false ∧
    (failThread th "Workflow has no graph configuration").status = .failed ∧
    (failThread th "Workflow has no graph configuration").error_message =
      some "Workflow has no graph configuration" := by
  simp only [execute_workflow, hth, hwf, hg]
  exact ⟨rfl, rfl, rfl, rfl⟩

/-- C8 witness: the fixture database exercises the unset-graph path. -/
theorem execute_workflow_missing_graph_config_witness :
    (execute_workflow dbFixture (ExecOutcome.ok []) "t1").thread =
      some (failThread thFixture "Workflow has no graph configuration") ∧
    (execute_workflow dbFixture (ExecOutcome.ok []) "t1").executorInvoked =
      false ∧
    (failThread thFixture "Workflow has no graph configuration").status =
      .failed ∧
    (failThread thFixture "Workflow has no graph configuration").error_message =
      some "Workflow has no graph configuration" :=
  execute_workflow_missing_graph_config dbFixture (ExecOutcome.ok []) "t1"
    thFixture wfFixtureNoGraph rfl rfl rfl

/-! ### C10: the collect node -/

theorem dictGet_collectFold (st : PyState) (keys : List String)
    (acc : List (String × PyVal)) (k : String) :
    dictGet (keys.foldl (collectStep st) acc) k =
      if k ∈ keys ∧ collectible st k = true then dictGet st k
      else dictGet acc k := by
  induction keys generalizing acc with
  | nil => simp
  | cons k0 t ih =>
    rw [List.foldl_cons, ih]
    by_cases hk : k ∈ t ∧ collectible st k = true
    · rw [if_pos hk, if_pos ⟨List.mem_cons_of_mem k0 hk.1, hk.2⟩]
    · rw [if_neg hk]
      by_cases hk0 : k = k0
      · subst hk0
        unfold collectStep
        rcases hs : dictGet st k with _ | pv
        · show dictGet acc k =
            if k ∈ k :: t ∧ collectible st k = true then none
            else dictGet acc k
          rw [if_neg (fun hc => by simp [collectible, hs] at hc)]
        · show dictGet (if excludedVal pv = true then acc else dictSet acc k pv) k =
            if k ∈ k :: t ∧ collectible st k = true then some pv
            else dictGet acc k
          by_cases hex : excludedVal pv = true
          · rw [if_pos hex, if_neg (fun hc => by simp [collectible, hs, hex] at hc)]
          · rw [if_neg hex, dictGet_dictSet, if_pos rfl,
              if_pos ⟨List.mem_cons_self k t,
                by simp [collectible, hs, hex]⟩]
      · have hkt : ¬(k ∈ k0 :: t ∧ collectible st k = true) := by
          intro hc
          rcases List.mem_cons.mp hc.1 with h | h
          · exact hk0 h
          · exact hk ⟨h, hc.2⟩
        rw [if_neg hkt]
        unfold collectStep
        rcases dictGet st k0 with _ | pv
        · rfl
        · show dictGet (if excludedVal pv = true then acc else dictSet acc k0 pv) k =
            dictGet acc k
          by_cases hex : excludedVal pv = true
          · rw [if_pos hex]
          · rw [if_neg hex, dictGet_dictSet, if_neg hk0]

/-- C10, counterexample: with `include_keys` configured as the empty
list the handler does not collect nothing — the falsy empty list falls
back to all known state keys, so the non-empty `input_text` is
collected even though the configured include list does not contain it. -/
theorem output_node_empty_include_collects_all :
    dictGet (collectedOf (output_node cfgEmptyInclude stOneKey)) "input_text" =
      some (.v (.str "hi")) ∧
    dictGet cfgEmptyInclude "include_keys" = some (.arr []) := ⟨rfl, rfl⟩

/-- C10 (amended): the collect handler writes the single state key
`output_data`, whose dict holds exactly those checked keys whose state
value is present and neither null, the empty string, nor an empty dict,
each mapped to its unchanged state value; the checked keys are the
configured `include_keys` when that is a non-empty list and the 14 known
state keys otherwise (also when `include_keys` is configured empty). -/
theorem output_node_collects (node_config : List (String × JVal))
    (st : PyState) :
    output_node node_config st =
      [("output_data", .dict (collectedOf (output_node node_config st)))] ∧
    ∀ k, dictGet (collectedOf (output_node node_config st)) k =
      if k ∈ keysToCheck node_config ∧ collectible st k = true then dictGet st k
      else none :=
  ⟨rfl, fun k => dictGet_collectFold st (keysToCheck node_config) [] k⟩

/-! ### C6: design-tool failure and the export step -/

/-- C6, counterexample: when the adapter raises an exception whose text
is empty, the handler encodes `canva_error` as the empty string — the
claimed non-empty error string does not hold. -/
theorem canva_create_failure_empty_error :
    dictGet (canva_mcp_node cfgCreateOp callsExcEmpty []) "canva_error" =
      some (.v (.str "")) ∧
    dictGet (canva_mcp_node cfgCreateOp callsExcEmpty []) "canva_success" =
      some (.v (.bool false)) ∧
    callsExcEmpty.createRes = .exc "" := ⟨rfl, rfl, rfl⟩

/-- C6 (amended): a failing create — the adapter raising, or reporting
failure — never escapes the handler: the partial state carries
`canva_success=false` and `canva_error` equal to the exception text
resp. the adapter-reported error (non-empty exactly when that text is);
and the export handler, seeing no design URL in state, still returns a
`final_output` carrying the "No design URL available" error instead of
raising. -/
theorem canva_create_failure_then_export (node_config : List (String × JVal))
    (calls : CanvaCalls) (st : PyState)
    (hop : dictGet node_config "operation" = some (.str "create")) :
    (∀ m, calls.createRes = .exc m →
      dictGet (canva_mcp_node node_config calls st) "canva_success" =
        some (.v (.bool false)) ∧
      dictGet (canva_mcp_node node_config calls st) "canva_error" =
        some (.v (.str m))) ∧
    (∀ r, calls.createRes = .ok r → r.success = false →
      dictGet (canva_mcp_node node_config calls st) "canva_success" =
        some (.v (.bool false)) ∧
      dictGet (canva_mcp_node node_config calls st) "canva_error" =
        some (.v (optStrVal r.error))) ∧
    (∀ (cfg2 : List (String × JVal)) (ec : ExportSvcOut) (st2 : PyState),
      stateStrD st2 "canva_design_url" "" = "" →
      output_export_node cfg2 ec st2 =
        [("final_output", .v (.obj
          [("type", .str (exportOutputTy cfg2)),
           ("url", .str ""),
           ("error", .str "No design URL available")]))]) := by
  refine ⟨?_, ?_, ?_⟩
  · intro m hm
    simp only [canva_mcp_node, hop, hm]
    exact ⟨rfl, rfl⟩
  · intro r hr hsucc
    simp only [canva_mcp_node, hop, hr, hsucc]
    constructor
    · simp [canvaExcState, hsucc, dictGet, List.find?]
    · simp [canvaExcState, hsucc, dictGet, List.find?]
  · intro cfg2 ec st2 hurl
    simp only [output_export_node, hurl]
    rfl

/-- C6 witness: concrete failing create calls and a design-URL-free
export state exercise every hypothesis of the theorem. -/
theorem canva_create_failure_then_export_witness :
    (dictGet (canva_mcp_node cfgCreateOp callsExcBoom []) "canva_success" =
      some (.v (.bool false)) ∧
     dictGet (canva_mcp_node cfgCreateOp callsExcBoom []) "canva_error" =
      some (.v (.str "boom"))) ∧
    (dictGet (canva_mcp_node cfgCreateOp callsCreateFailed []) "canva_success" =
      some (.v (.bool false)) ∧
     dictGet (canva_mcp_node cfgCreateOp callsCreateFailed []) "canva_error" =
      some (.v (optStrVal (some "remote failure")))) ∧
    output_export_node [] (ExportSvcOut.ok ⟨"link", "", none, "", none⟩) [] =
      [("final_output", .v (.obj
        [("type", .str (exportOutputTy [])),
         ("url", .str ""),
         ("error", .str "No design URL available")]))] :=
  ⟨(canva_create_failure_then_export cfgCreateOp callsExcBoom [] rfl).1
      "boom" rfl,
   (canva_create_failure_then_export cfgCreateOp callsCreateFailed [] rfl).2.1
      ⟨false, "", "", some "remote failure"⟩ rfl rfl,
   (canva_create_failure_then_export cfgCreateOp callsExcBoom [] rfl).2.2
      [] (ExportSvcOut.ok ⟨"link", "", none, "", none⟩) [] rfl⟩

/-! ### C3: lemmas about the compiler's node map and branch tables -/

theorem find?_id_of_nodup (nodes : List GNode) (n : GNode)
    (hn : n ∈ nodes) (hnodup : (nodes.map (·.id)).Nodup) :
    nodes.find? (fun nd => nd.id = n.id) = some n := by
  induction nodes with
  | nil => cases hn
  | cons m t ih =>
    rw [List.map_cons, List.nodup_cons] at hnodup
    rcases List.mem_cons.mp hn with h | h
    · subst h
      simp [List.find?]
    · by_cases hm : m.id = n.id
      · exact absurd (hm ▸ List.mem_map.mpr ⟨n, h, rfl⟩) hnodup.1
      · simp only [List.find?, hm, decide_eq_true_eq, decide_eq_false hm]
        exact ih h hnodup.2

theorem dictGet_nodeMapFold_absent (nodes : List GNode)
    (m : List (String × String)) (k : String)
    (h : ∀ n ∈ nodes, n.id ≠ k) :
    dictGet (nodes.foldl (fun acc nd => dictSet acc nd.id (sentHandle nd)) m) k =
      dictGet m k := by
  induction nodes generalizing m with
  | nil => rfl
  | cons n0 t ih =>
    rw [List.foldl_cons, ih _ (fun n hn => h n (List.mem_cons_of_mem _ hn)),
      dictGet_dictSet,
      if_neg (fun hh => h n0 (List.mem_cons_self _ _) hh.symm)]

theorem dictGet_nodeMapFold_found (nodes : List GNode)
    (m : List (String × String)) (n : GNode)
    (hn : n ∈ nodes) (hnodup : (nodes.map (·.id)).Nodup) :
    dictGet (nodes.foldl (fun acc nd => dictSet acc nd.id (sentHandle nd)) m)
      n.id = some (sentHandle n) := by
  induction nodes generalizing m with
  | nil => cases hn
  | cons n0 t ih =>
    rw [List.map_cons, List.nodup_cons] at hnodup
    rcases List.mem_cons.mp hn with h | h
    · subst h
      rw [List.foldl_cons,
        dictGet_nodeMapFold_absent t _ n.id
          (fun nd hnd hh => hnodup.1 (hh ▸ List.mem_map.mpr ⟨nd, hnd, rfl⟩)),
        dictGet_dictSet, if_pos rfl]
    · rw [List.foldl_cons]
      exact ih _ h hnodup.2

theorem dictGet_nodeMapOf_found (nodes : List GNode) (n : GNode)
    (hn : n ∈ nodes) (hnodup : (nodes.map (·.id)).Nodup) :
    dictGet (nodeMapOf nodes) n.id = some (sentHandle n) :=
  dictGet_nodeMapFold_found nodes [] n hn hnodup

theorem sentHandle_cases (n : GNode) :
    sentHandle n = n.id ∨ sentHandle n = sentinelStart ∨
    sentHandle n = sentinelEnd := by
  unfold sentHandle
  cases n.data.node_type <;> simp

theorem nodeMapFold_val (nodes : List GNode) (m : List (String × String))
    (hm : ∀ k' v', dictGet m k' = some v' →
      v' = k' ∨ v' = sentinelStart ∨ v' = sentinelEnd)
    (k v : String)
    (h : dictGet (nodes.foldl (fun acc nd => dictSet acc nd.id (sentHandle nd)) m)
      k = some v) :
    v = k ∨ v = sentinelStart ∨ v = sentinelEnd := by
  induction nodes generalizing m with
  | nil => exact hm k v h
  | cons n0 t ih =>
    rw [List.foldl_cons] at h
    refine ih _ ?_ h
    intro k' v' hg
    rw [dictGet_dictSet] at hg
    by_cases hk : k' = n0.id
    · rw [if_pos hk] at hg
      cases hg
      rcases sentHandle_cases n0 with hh | hh | hh <;> rw [hh]
      · exact Or.inl hk.symm
      · exact Or.inr (Or.inl rfl)
      · exact Or.inr (Or.inr rfl)
    · rw [if_neg hk] at hg
      exact hm k' v' hg

theorem nodeMapOf_val (nodes : List GNode) (k v : String)
    (h : dictGet (nodeMapOf nodes) k = some v) :
    v = k ∨ v = sentinelStart ∨ v = sentinelEnd :=
  nodeMapFold_val nodes [] (fun _ _ hg => by cases hg) k v h

theorem resolveT_ne (nodes : List GNode) (k nid : String)
    (hk : k ≠ nid) (h1 : nid ≠ sentinelStart) (h2 : nid ≠ sentinelEnd) :
    resolveT (nodeMapOf nodes) k ≠ nid := by
  unfold resolveT dictGetD
  rcases hg : dictGet (nodeMapOf nodes) k with _ | v
  · simpa using hk
  · rcases nodeMapOf_val nodes k v hg with h | h | h <;> subst h <;> simp
    · exact hk
    · exact fun hh => h1 hh.symm
    · exact fun hh => h2 hh.symm

theorem pathMapOf_ne_nil (nm : List (String × String)) (e : GEdge)
    (es : List GEdge) :
    pathMapOf nm (e :: es) ≠ [] := by
  unfold pathMapOf
  rw [List.foldl_cons]
  have base : ∀ (es' : List GEdge) (d : List (String × String)), d ≠ [] →
      List.foldl (fun m ce =>
        let ct := dictGetD nm ce.target ce.target
        if ce.source_handle = some "true" then dictSet m "true" ct
        else dictSet m "false" ct) d es' ≠ [] := by
    intro es'
    induction es' with
    | nil => intro d hd; exact hd
    | cons e0 t ih =>
      intro d hd
      rw [List.foldl_cons]
      refine ih _ ?_
      show (let ct := dictGetD nm e0.target e0.target
        if e0.source_handle = some "true" then dictSet d "true" ct
        else dictSet d "false" ct) ≠ []
      by_cases h : e0.source_handle = some "true"
      · simp only [if_pos h]
        cases d with
        | nil => simp [dictSet]
        | cons p t2 =>
          show (if p.1 = "true" then _ :: t2 else p :: dictSet t2 "true" _) ≠ []
          split <;> simp
      · simp only [if_neg h]
        cases d with
        | nil => simp [dictSet]
        | cons p t2 =>
          show (if p.1 = "false" then _ :: t2 else p :: dictSet t2 "false" _) ≠ []
          split <;> simp
  refine base es _ ?_
  by_cases h : e.source_handle = some "true"
  · rw [if_pos h]; simp [dictSet]
  · rw [if_neg h]; simp [dictSet]

theorem dictGet_pathMapOf_true (nm : List (String × String)) (es : List GEdge) :
    dictGet (pathMapOf nm es) "true" =
      ((es.filter (fun e => decide (e.source_handle = some "true"))).getLast?).map
        (fun e => resolveT nm e.target) := by
  induction es using List.reverseRecOn with
  | nil => rfl
  | append_singleton es e ih =>
    unfold pathMapOf at ih ⊢
    rw [List.foldl_append, List.foldl_cons, List.foldl_nil, List.filter_append]
    by_cases h : e.source_handle = some "true"
    · rw [if_pos h]
      rw [dictGet_dictSet, if_pos rfl]
      simp [h, List.getLast?_concat, resolveT, dictGetD]
    · rw [if_neg h]
      rw [dictGet_dictSet, if_neg (by simp)]
      simp [h, ih]

theorem dictGet_pathMapOf_false (nm : List (String × String)) (es : List GEdge) :
    dictGet (pathMapOf nm es) "false" =
      ((es.filter (fun e => !decide (e.source_handle = some "true"))).getLast?).map
        (fun e => resolveT nm e.target) := by
  induction es using List.reverseRecOn with
  | nil => rfl
  | append_singleton es e ih =>
    unfold pathMapOf at ih ⊢
    rw [List.foldl_append, List.foldl_cons, List.foldl_nil, List.filter_append]
    by_cases h : e.source_handle = some "true"
    · rw [if_pos h]
      rw [dictGet_dictSet, if_neg (by simp)]
      simp [h, ih]
    · rw [if_neg h]
      rw [dictGet_dictSet, if_pos rfl]
      simp [h, List.getLast?_concat, resolveT, dictGetD]

theorem buildEdgeStep_shape (g : GraphDef) (nm : List (String × String))
    (acc : BuildOps) (e : GEdge) :
    ((buildEdgeStep g nm acc e).conds = acc.conds ∨
      (buildEdgeStep g nm acc e).conds =
        acc.conds ++ [⟨resolveT nm e.source, nodeCfgOf g.nodes e.source,
          pathMapOf nm (g.edges.filter (fun ce => ce.source = e.source))⟩]) ∧
    ((buildEdgeStep g nm acc e).direct = acc.direct ∨
      ∃ t2, (buildEdgeStep g nm acc e).direct =
        acc.direct ++ [(resolveT nm e.source, t2)]) := by
  unfold buildEdgeStep
  by_cases h1 : isCondSource g.nodes e.source = true
  · rw [if_pos h1]
    by_cases h2 : (g.edges.filter fun ce => ce.source = e.source).length ≥ 2
    · rw [if_pos h2]
      by_cases h3 : (!(pathMapOf nm (g.edges.filter
            (fun ce => ce.source = e.source))).isEmpty &&
          dictGetD nm e.source e.source != sentinelStart &&
          dictGetD nm e.source e.source != sentinelEnd) = true
      · rw [if_pos h3]
        exact ⟨Or.inr rfl, Or.inl rfl⟩
      · rw [if_neg h3]
        exact ⟨Or.inl rfl, Or.inl rfl⟩
    · rw [if_neg h2]
      exact ⟨Or.inl rfl, Or.inl rfl⟩
  · rw [if_neg h1]
    by_cases h4 : dictGetD nm e.source e.source = sentinelStart
    · rw [if_pos h4]
      refine ⟨Or.inl rfl, Or.inr ⟨dictGetD nm e.target e.target, ?_⟩⟩
      show acc.direct ++ [(sentinelStart, _)] = _
      rw [← h4]
      rfl
    · rw [if_neg h4]
      by_cases h5 : dictGetD nm e.target e.target = sentinelEnd
      · rw [if_pos h5]
        exact ⟨Or.inl rfl, Or.inr ⟨sentinelEnd, rfl⟩⟩
      · rw [if_neg h5]
        by_cases h6 : (dictGetD nm e.source e.source != sentinelStart &&
            dictGetD nm e.source e.source != sentinelEnd &&
            dictGetD nm e.target e.target != sentinelStart &&
            dictGetD nm e.target e.target != sentinelEnd) = true
        · rw [if_pos h6]
          exact ⟨Or.inl rfl, Or.inr ⟨dictGetD nm e.target e.target, rfl⟩⟩
        · rw [if_neg h6]
          exact ⟨Or.inl rfl, Or.inl rfl⟩

theorem buildEdgeStep_at_cond_ge2 (g : GraphDef) (n : GNode) (acc : BuildOps)
    (e : GEdge) (hn : n ∈ g.nodes) (hty : n.data.node_type = .condition)
    (hnodup : (g.nodes.map (·.id)).Nodup)
    (hs1 : n.id ≠ sentinelStart) (hs2 : n.id ≠ sentinelEnd)
    (he : e.source = n.id) (h2 : 2 ≤ (outEdgesOf g n.id).length) :
    buildEdgeStep g (nodeMapOf g.nodes) acc e =
      { acc with conds := acc.conds ++ [⟨n.id, n.data.config,
          pathMapOf (nodeMapOf g.nodes) (outEdgesOf g n.id)⟩] } := by
  have hfind : g.nodes.find? (fun nd => nd.id = e.source) = some n := by
    rw [he]; exact find?_id_of_nodup g.nodes n hn hnodup
  have hcond : isCondSource g.nodes e.source = true := by
    unfold isCondSource
    rw [hfind]
    show decide (n.data.node_type = NodeTy.condition) = true
    rw [hty]
    rfl
  have hres : dictGetD (nodeMapOf g.nodes) e.source e.source = n.id := by
    rw [he]
    unfold dictGetD
    rw [dictGet_nodeMapOf_found g.nodes n hn hnodup]
    simp [sentHandle, hty]
  have hout : g.edges.filter (fun ce => ce.source = e.source) =
      outEdgesOf g n.id := by
    rw [he]; rfl
  have hcfg : nodeCfgOf g.nodes e.source = n.data.config := by
    unfold nodeCfgOf
    rw [hfind]
  have hpm : ¬(pathMapOf (nodeMapOf g.nodes) (outEdgesOf g n.id)).isEmpty = true := by
    rcases houtl : outEdgesOf g n.id with _ | ⟨e0, t⟩
    · rw [houtl] at h2; simp at h2
    · simpa [List.isEmpty_iff] using pathMapOf_ne_nil (nodeMapOf g.nodes) e0 t
  have hguard : (!(pathMapOf (nodeMapOf g.nodes)
        (outEdgesOf g n.id)).isEmpty &&
      n.id != sentinelStart && n.id != sentinelEnd) = true := by
    simp only [Bool.and_eq_true, bne_iff_ne]
    exact ⟨⟨by simpa using hpm, hs1⟩, hs2⟩
  unfold buildEdgeStep
  rw [if_pos hcond, hout, if_pos h2, hcfg, hres, if_pos hguard]

theorem buildEdgeStep_at_cond_lt2 (g : GraphDef) (n : GNode) (acc : BuildOps)
    (e : GEdge) (hn : n ∈ g.nodes) (hty : n.data.node_type = .condition)
    (hnodup : (g.nodes.map (·.id)).Nodup)
    (he : e.source = n.id) (h2 : (outEdgesOf g n.id).length < 2) :
    buildEdgeStep g (nodeMapOf g.nodes) acc e = acc := by
  have hfind : g.nodes.find? (fun nd => nd.id = e.source) = some n := by
    rw [he]; exact find?_id_of_nodup g.nodes n hn hnodup
  have hcond : isCondSource g.nodes e.source = true := by
    unfold isCondSource
    rw [hfind]
    show decide (n.data.node_type = NodeTy.condition) = true
    rw [hty]
    rfl
  have hout : g.edges.filter (fun ce => ce.source = e.source) =
      outEdgesOf g n.id := by
    rw [he]; rfl
  unfold buildEdgeStep
  rw [if_pos hcond, hout, if_neg (by omega)]

theorem buildEdgeStep_other_filter (g : GraphDef) (acc : BuildOps) (e : GEdge)
    (nid : String) (he : e.source ≠ nid)
    (hs1 : nid ≠ sentinelStart) (hs2 : nid ≠ sentinelEnd) :
    (buildEdgeStep g (nodeMapOf g.nodes) acc e).conds.filter
        (fun c => c.src = nid) =
      acc.conds.filter (fun c => c.src = nid) ∧
    (buildEdgeStep g (nodeMapOf g.nodes) acc e).direct.filter
        (fun p => p.1 = nid) =
      acc.direct.filter (fun p => p.1 = nid) := by
  have hne : resolveT (nodeMapOf g.nodes) e.source ≠ nid :=
    resolveT_ne g.nodes e.source nid he hs1 hs2
  obtain ⟨hc, hd⟩ := buildEdgeStep_shape g (nodeMapOf g.nodes) acc e
  constructor
  · rcases hc with h | h
    · rw [h]
    · rw [h, List.filter_append]
      simp [hne]
  · rcases hd with h | h
    · rw [h]
    · obtain ⟨t2, h⟩ := h
      rw [h, List.filter_append]
      simp [hne]

theorem buildFold_filter_ge2 (g : GraphDef) (n : GNode)
    (hn : n ∈ g.nodes) (hty : n.data.node_type = .condition)
    (hnodup : (g.nodes.map (·.id)).Nodup)
    (hs1 : n.id ≠ sentinelStart) (hs2 : n.id ≠ sentinelEnd)
    (h2 : 2 ≤ (outEdgesOf g n.id).length) :
    ∀ (es : List GEdge) (acc : BuildOps),
      ((es.foldl (buildEdgeStep g (nodeMapOf g.nodes)) acc).conds.filter
          (fun c => c.src = n.id) =
        acc.conds.filter (fun c => c.src = n.id) ++
          (es.filter (fun e => e.source = n.id)).map (fun _ =>
            ⟨n.id, n.data.config,
             pathMapOf (nodeMapOf g.nodes) (outEdgesOf g n.id)⟩)) ∧
      ((es.foldl (buildEdgeStep g (nodeMapOf g.nodes)) acc).direct.filter
          (fun p => p.1 = n.id) =
        acc.direct.filter (fun p => p.1 = n.id)) := by
  intro es
  induction es with
  | nil => intro acc; simp
  | cons e t ih =>
    intro acc
    rw [List.foldl_cons]
    by_cases he : e.source = n.id
    · rw [buildEdgeStep_at_cond_ge2 g n acc e hn hty hnodup hs1 hs2 he h2]
      obtain ⟨ihc, ihd⟩ := ih _
      refine ⟨?_, ihd⟩
      rw [ihc]
      show (acc.conds ++ _).filter _ ++ _ = _
      rw [List.filter_append, List.filter_cons]
      simp [he, List.append_assoc]
    · obtain ⟨hoc, hod⟩ :=
        buildEdgeStep_other_filter g acc e n.id he hs1 hs2
      obtain ⟨ihc, ihd⟩ := ih (buildEdgeStep g (nodeMapOf g.nodes) acc e)
      refine ⟨?_, by rw [ihd, hod]⟩
      rw [ihc, hoc, List.filter_cons]
      simp [he]

theorem buildFold_filter_lt2 (g : GraphDef) (n : GNode)
    (hn : n ∈ g.nodes) (hty : n.data.node_type = .condition)
    (hnodup : (g.nodes.map (·.id)).Nodup)
    (hs1 : n.id ≠ sentinelStart) (hs2 : n.id ≠ sentinelEnd)
    (h2 : (outEdgesOf g n.id).length < 2) :
    ∀ (es : List GEdge) (acc : BuildOps),
      ((es.foldl (buildEdgeStep g (nodeMapOf g.nodes)) acc).conds.filter
          (fun c => c.src = n.id) =
        acc.conds.filter (fun c => c.src = n.id)) ∧
      ((es.foldl (buildEdgeStep g (nodeMapOf g.nodes)) acc).direct.filter
          (fun p => p.1 = n.id) =
        acc.direct.filter (fun p => p.1 = n.id)) := by
  intro es
  induction es with
  | nil => intro acc; exact ⟨rfl, rfl⟩
  | cons e t ih =>
    intro acc
    rw [List.foldl_cons]
    by_cases he : e.source = n.id
    · rw [buildEdgeStep_at_cond_lt2 g n acc e hn hty hnodup he h2]
      exact ih acc
    · obtain ⟨hoc, hod⟩ :=
        buildEdgeStep_other_filter g acc e n.id he hs1 hs2
      obtain ⟨ihc, ihd⟩ := ih (buildEdgeStep g (nodeMapOf g.nodes) acc e)
      exact ⟨by rw [ihc, hoc], by rw [ihd, hod]⟩

/-- C3, counterexample: a condition node with exactly one outgoing edge
is not routed unconditionally along that edge — the compiler registers
no transition for it at all, neither direct nor conditional. -/
theorem condition_single_edge_drops_edge :
    (outEdgesOf gphOneCondEdge "c").length = 1 ∧
    ¬("c", "a") ∈ (buildGraphOps gphOneCondEdge).direct ∧
    (buildGraphOps gphOneCondEdge).direct = [] ∧
    (buildGraphOps gphOneCondEdge).conds = [] := by
  refine ⟨rfl, ?_, rfl, rfl⟩
  show ¬("c", "a") ∈ ([] : List (String × String))
  simp

/-- C3 (amended): for a declared condition node (distinct node ids, id
not a sentinel): with at least two outgoing edges the compiler registers
one identical conditional transition per outgoing edge, carrying the
node's config and a branch table whose `"true"` entry is the resolved
target of the last outgoing edge labelled `"true"` and whose `"false"`
entry is the resolved target of the last other outgoing edge; with fewer
than two outgoing edges it registers nothing for the node — no
conditional transition and no direct edge. -/
theorem build_graph_condition_routing (g : GraphDef) (n : GNode)
    (hn : n ∈ g.nodes) (hty : n.data.node_type = .condition)
    (hnodup : (g.nodes.map (·.id)).Nodup)
    (hs1 : n.id ≠ sentinelStart) (hs2 : n.id ≠ sentinelEnd) :
    directFrom g n.id = [] ∧
    (2 ≤ (outEdgesOf g n.id).length →
      condOpsFor g n.id = (outEdgesOf g n.id).map (fun _ =>
        ⟨n.id, n.data.config,
         pathMapOf (nodeMapOf g.nodes) (outEdgesOf g n.id)⟩)) ∧
    ((outEdgesOf g n.id).length < 2 → condOpsFor g n.id = []) ∧
    dictGet (pathMapOf (nodeMapOf g.nodes) (outEdgesOf g n.id)) "true" =
      lastTrueTarget g n.id ∧
    dictGet (pathMapOf (nodeMapOf g.nodes) (outEdgesOf g n.id)) "false" =
      lastFalseTarget g n.id := by
  refine ⟨?_, ?_, ?_, ?_, ?_⟩
  · by_cases h2 : 2 ≤ (outEdgesOf g n.id).length
    · exact
        (buildFold_filter_ge2 g n hn hty hnodup hs1 hs2 h2 g.edges ⟨[], []⟩).2
    · exact (buildFold_filter_lt2 g n hn hty hnodup hs1 hs2
        (by omega) g.edges ⟨[], []⟩).2
  · intro h2
    have h :=
      (buildFold_filter_ge2 g n hn hty hnodup hs1 hs2 h2 g.edges ⟨[], []⟩).1
    simpa [condOpsFor, outEdgesOf, buildGraphOps] using h
  · intro h2
    exact
      (buildFold_filter_lt2 g n hn hty hnodup hs1 hs2 h2 g.edges ⟨[], []⟩).1
  · rw [dictGet_pathMapOf_true]
    rfl
  · rw [dictGet_pathMapOf_false]
    rfl

/-- C3 witness: the two-branch fixture exercises the theorem. -/
theorem build_graph_condition_routing_witness :
    directFrom gphTwoBranches "c" = [] ∧
    condOpsFor gphTwoBranches "c" = (outEdgesOf gphTwoBranches "c").map
      (fun _ => ⟨"c", [],
        pathMapOf (nodeMapOf gphTwoBranches.nodes)
          (outEdgesOf gphTwoBranches "c")⟩) ∧
    dictGet (pathMapOf (nodeMapOf gphTwoBranches.nodes)
        (outEdgesOf gphTwoBranches "c")) "true" =
      lastTrueTarget gphTwoBranches "c" := by
  have h := build_graph_condition_routing gphTwoBranches
    ⟨"c", ⟨"c", NodeTy.condition, [], none⟩⟩
    (by simp [gphTwoBranches])
    rfl (by decide) (by decide) (by decide)
  exact ⟨h.1, h.2.1 (by decide), h.2.2.2.1⟩

/-! ### C9: prompt interpolation -/

theorem matchPh_sound (cs : List Char) :
    ∀ (k r : List Char), matchPh cs = some (k, r) →
      cs = k ++ rbrace :: rbrace :: r ∧ k.all isWordCh = true := by
  induction cs with
  | nil => intro k r h; cases h
  | cons c rest ih =>
    intro k r h
    rcases rest with _ | ⟨c2, rest2⟩
    · cases h
    · unfold matchPh at h
      by_cases hw : isWordCh c = true
      · rw [if_pos hw] at h
        rcases hm : matchPh (c2 :: rest2) with _ | ⟨k', r'⟩ <;> rw [hm] at h
        · cases h
        · injection h with hpair
          injection hpair with h1 h2
          obtain ⟨hsplit, hall⟩ := ih k' r' hm
          subst h1
          subst h2
          constructor
          · rw [List.cons_append, ← hsplit]
          · simp [List.all_cons, hw, hall]
      · rw [if_neg hw] at h
        by_cases hb : (c = rbrace && c2 = rbrace) = true
        · rw [if_pos hb] at h
          injection h with hpair
          injection hpair with h1 h2
          subst h1
          subst h2
          simp only [Bool.and_eq_true, decide_eq_true_eq] at hb
          rw [hb.1, hb.2]
          exact ⟨rfl, rfl⟩
        · rw [if_neg hb] at h
          cases h

theorem interpAux_eq_ph_empty (vars : List (String × String))
    (rem key r3 : List Char) (hm : matchPh rem = some (key, r3))
    (hk : key.isEmpty = true) :
    interpAux vars (lbrace :: lbrace :: rem) =
      lbrace :: interpAux vars (lbrace :: rem) := by
  rw [interpAux.eq_def]
  simp
  split
  · rename_i key2 r32 heq
    rw [hm] at heq
    injection heq with hp
    injection hp with h1 h2
    subst h1
    subst h2
    rw [if_pos (by simpa [List.isEmpty_iff] using hk)]
  · rfl

theorem interpAux_eq_ph (vars : List (String × String))
    (rem key r3 : List Char) (hm : matchPh rem = some (key, r3))
    (hk : ¬key.isEmpty = true) :
    interpAux vars (lbrace :: lbrace :: rem) =
      phRender vars key ++ interpAux vars r3 := by
  rw [interpAux.eq_def]
  simp
  split
  · rename_i key2 r32 heq
    rw [hm] at heq
    injection heq with hp
    injection hp with h1 h2
    subst h1
    subst h2
    rw [if_neg (by simpa [List.isEmpty_iff] using hk)]
  · rename_i heq
    rw [hm] at heq
    cases heq

theorem interpAux_eq_nomatch (vars : List (String × String))
    (rem : List Char) (hm : matchPh rem = none) :
    interpAux vars (lbrace :: lbrace :: rem) =
      lbrace :: interpAux vars (lbrace :: rem) := by
  rw [interpAux.eq_def]
  simp
  split
  · rename_i key2 r32 heq
    rw [hm] at heq
    cases heq
  · rfl

theorem interpAux_eq_brace_other (vars : List (String × String))
    (r : Char) (rem : List Char) (hr : ¬r = lbrace) :
    interpAux vars (lbrace :: r :: rem) =
      lbrace :: interpAux vars (r :: rem) := by
  rw [interpAux.eq_def]
  simp [hr]

theorem interpAux_eq_single (vars : List (String × String)) :
    interpAux vars [lbrace] = [lbrace] := by
  rw [interpAux.eq_def]
  simp

theorem interpAux_eq_other (vars : List (String × String))
    (c : Char) (t : List Char) (hc : ¬c = lbrace) :
    interpAux vars (c :: t) = c :: interpAux vars t := by
  rw [interpAux.eq_def]
  simp [hc]

theorem tokenize_eq_ph_empty (rem key r3 : List Char)
    (hm : matchPh rem = some (key, r3)) (hk : key.isEmpty = true) :
    tokenize (lbrace :: lbrace :: rem) =
      .lit lbrace :: tokenize (lbrace :: rem) := by
  rw [tokenize.eq_def]
  simp
  split
  · rename_i key2 r32 heq
    rw [hm] at heq
    injection heq with hp
    injection hp with h1 h2
    subst h1
    subst h2
    rw [if_pos (by simpa [List.isEmpty_iff] using hk)]
  · rfl

theorem tokenize_eq_ph (rem key r3 : List Char)
    (hm : matchPh rem = some (key, r3)) (hk : ¬key.isEmpty = true) :
    tokenize (lbrace :: lbrace :: rem) = .ph key :: tokenize r3 := by
  rw [tokenize.eq_def]
  simp
  split
  · rename_i key2 r32 heq
    rw [hm] at heq
    injection heq with hp
    injection hp with h1 h2
    subst h1
    subst h2
    rw [if_neg (by simpa [List.isEmpty_iff] using hk)]
  · rename_i heq
    rw [hm] at heq
    cases heq

theorem tokenize_eq_nomatch (rem : List Char) (hm : matchPh rem = none) :
    tokenize (lbrace :: lbrace :: rem) =
      .lit lbrace :: tokenize (lbrace :: rem) := by
  rw [tokenize.eq_def]
  simp
  split
  · rename_i key2 r32 heq
    rw [hm] at heq
    cases heq
  · rfl

theorem tokenize_eq_brace_other (r : Char) (rem : List Char)
    (hr : ¬r = lbrace) :
    tokenize (lbrace :: r :: rem) = .lit lbrace :: tokenize (r :: rem) := by
  rw [tokenize.eq_def]
  simp [hr]

theorem tokenize_eq_single : tokenize [lbrace] = [.lit lbrace] := by
  rw [tokenize.eq_def]
  simp

theorem tokenize_eq_other (c : Char) (t : List Char) (hc : ¬c = lbrace) :
    tokenize (c :: t) = .lit c :: tokenize t := by
  rw [tokenize.eq_def]
  simp [hc]

theorem interpAux_tokens (vars : List (String × String)) (cs : List Char) :
    interpAux vars cs = ((tokenize cs).map (tokSubst vars)).flatten ∧
    ((tokenize cs).map tokOrig).flatten = cs ∧
    (tokenize cs).all tokWF = true := by
  induction cs using interpAux.induct vars with
  | case1 =>
    rw [interpAux.eq_def, tokenize.eq_def]
    exact ⟨rfl, rfl, rfl⟩
  | case2 rem key r3 hm hk ih =>
    rw [interpAux_eq_ph_empty vars rem key r3 hm hk,
      tokenize_eq_ph_empty rem key r3 hm hk]
    simp [tokSubst, tokOrig, tokWF, ih.1, ih.2.1, ih.2.2]
  | case3 rem key r3 hm hk ih =>
    rw [interpAux_eq_ph vars rem key r3 hm hk,
      tokenize_eq_ph rem key r3 hm hk]
    obtain ⟨hsplit, hall⟩ := matchPh_sound rem key r3 hm
    refine ⟨?_, ?_, ?_⟩
    · simp [tokSubst, ih.1]
    · simp only [List.map_cons, List.flatten_cons, tokOrig, ih.2.1]
      rw [show (lbrace :: lbrace :: key ++ [rbrace, rbrace]) ++ r3 =
        lbrace :: lbrace :: (key ++ rbrace :: rbrace :: r3) by simp]
      rw [← hsplit]
    · simp [tokWF, ih.2.2, hall, List.isEmpty_iff]
      intro hkey
      exact hk (by simp [hkey])
  | case4 rem hm ih =>
    rw [interpAux_eq_nomatch vars rem hm, tokenize_eq_nomatch rem hm]
    simp [tokSubst, tokOrig, tokWF, ih.1, ih.2.1, ih.2.2]
  | case5 r rem hr ih =>
    rw [interpAux_eq_brace_other vars r rem hr,
      tokenize_eq_brace_other r rem hr]
    simp [tokSubst, tokOrig, tokWF, ih.1, ih.2.1, ih.2.2]
  | case6 =>
    rw [interpAux_eq_single, tokenize_eq_single]
    exact ⟨rfl, rfl, rfl⟩
  | case7 c t hc ih =>
    rw [interpAux_eq_other vars c t hc, tokenize_eq_other c t hc]
    simp [tokSubst, tokOrig, tokWF, ih.1, ih.2.1, ih.2.2]

/-- C9: `interpolate_prompt` is exactly per-token substitution — the
template tokenises into literal characters and well-formed placeholders
(non-empty word-character keys); re-rendering the tokens unchanged gives
back the template (so unbound placeholders and all surrounding text are
left untouched), and the interpolation result is the concatenation in
which exactly the placeholders whose key is bound are replaced by their
value, everything else kept verbatim. -/
theorem interpolate_prompt_tokens (template : String)
    (vars : List (String × String)) :
    (interpolate_prompt template vars).data =
      ((tokenize template.data).map (tokSubst vars)).flatten ∧
    ((tokenize template.data).map tokOrig).flatten = template.data ∧
    (tokenize template.data).all tokWF = true := by
  have h := interpAux_tokens vars template.data
  exact ⟨by simp only [interpolate_prompt]; exact h.1, h.2.1, h.2.2⟩

/-! ### C4: the fallback of the structured-output parser -/

/-- C4, counterexample: on input with surrounding whitespace and no
parseable JSON, the fallback `enhanced_text` is the stripped input, not
the raw input. -/
theorem parse_fallback_strips_input :
    (parse_llm_response " plain ").enhanced_text = "plain" ∧
    (parse_llm_response " plain ").enhanced_text ≠ " plain " := by
  have h1 : (parse_llm_response " plain ").enhanced_text = "plain" := rfl
  refine ⟨h1, ?_⟩
  rw [h1]
  decide

theorem parse_match_field_none (fs : List (String × JVal)) (raw : List Char)
    (hbad : vStrField fs "enhanced_text" = none ∨
      vStrField fs "design_intent" = none ∨ vInstrField fs = none) :
    (match vStrField fs "enhanced_text", vStrField fs "design_intent",
        vInstrField fs with
     | some a, some b, some c => (⟨a, b, c, String.mk raw⟩ : LLMTransformOutput)
     | _, _, _ => fallbackOut raw) = fallbackOut raw := by
  rcases h1 : vStrField fs "enhanced_text" with _ | a
  · rfl
  · rcases h2 : vStrField fs "design_intent" with _ | b
    · rfl
    · rcases h3 : vInstrField fs with _ | c
      · rfl
      · rcases hbad with hb | hb | hb
        · rw [hb] at h1
          cases h1
        · rw [hb] at h2
          cases h2
        · rw [hb] at h3
          cases h3

/-- C4 (amended): the parser is total, and whenever structured parsing
fails — no brace-led candidate, a JSON parse error, a non-object
document, or a field failing validation — it returns the fallback: the
whitespace-stripped input as `enhanced_text` (equal to the raw input
exactly when that has no surrounding whitespace), an empty
`design_intent`, and null `canva_instructions`. -/
theorem parse_llm_response_fallback (s : String) (h : ParseFails s) :
    parse_llm_response s = fallbackOut (pyStripL s.data) := by
  simp only [parse_llm_response]
  simp only [ParseFails] at h
  by_cases hs : startsWithL [lbrace] (extractCandidate (pyStripL s.data)) = true
  · rw [if_pos hs]
    rcases h with h | h | h | h
    · rw [hs] at h
      cases h
    · rw [h]
    · obtain ⟨v, hv, hno⟩ := h
      rw [hv]
      cases v <;> first
        | rfl
        | (exact absurd rfl (hno _))
    · obtain ⟨fs, hv, hbad⟩ := h
      rw [hv]
      exact parse_match_field_none fs (pyStripL s.data) hbad
  · rw [if_neg hs]

/-- C4 witness: a plain-text input exercises the fallback. -/
theorem parse_llm_response_fallback_witness :
    parse_llm_response "plain text" = fallbackOut (pyStripL "plain text".data) :=
  parse_llm_response_fallback "plain text" (Or.inl rfl)

/-! ### C5: round-trip of the structured-output encoding -/

theorem parseStrBody_escChars (l : List Char) :
    ∀ rest, parseStrBody (escChars l ++ '"' :: rest) = some (l, rest) := by
  induction l with
  | nil =>
    intro rest
    show parseStrBody ('"' :: rest) = _
    rw [parseStrBody.eq_def]
    simp
  | cons c t ih =>
    intro rest
    by_cases hq : c = '"'
    · subst hq
      show parseStrBody ('\\' :: '"' :: (escChars t ++ '"' :: rest)) = _
      rw [parseStrBody.eq_def]
      simp [unescCh, ih rest]
    · by_cases hb : c = '\\'
      · subst hb
        show parseStrBody ('\\' :: '\\' :: (escChars t ++ '"' :: rest)) = _
        rw [parseStrBody.eq_def]
        simp [unescCh, ih rest]
      · show parseStrBody ((escCh c ++ escChars t) ++ '"' :: rest) = _
        rw [show escCh c = [c] from by simp [escCh, hq, hb]]
        show parseStrBody (c :: (escChars t ++ '"' :: rest)) = _
        rw [parseStrBody.eq_def]
        simp [hq, hb, ih rest]

theorem digitVal_digitCh : ∀ d, d < 10 → digitVal (digitCh d) = d := by decide

theorem isDigitCh_digitCh : ∀ d, d < 10 → isDigitCh (digitCh d) = true := by
  decide

theorem natChars_all_digits (n : Nat) :
    ∀ c ∈ natChars n, isDigitCh c = true := by
  induction n using Nat.strong_induction_on with
  | _ n ih =>
    by_cases h : n < 10
    · rw [natChars, dif_pos h]
      intro c hc
      rcases List.mem_singleton.mp hc with rfl
      exact isDigitCh_digitCh n h
    · rw [natChars, dif_neg h]
      intro c hc
      rcases List.mem_append.mp hc with hm | hm
      · exact ih (n / 10) (Nat.div_lt_self (by omega) (by omega)) c hm
      · rcases List.mem_singleton.mp hm with rfl
        exact isDigitCh_digitCh (n % 10) (Nat.mod_lt _ (by omega))

theorem natChars_ne_nil (n : Nat) : natChars n ≠ [] := by
  by_cases h : n < 10
  · rw [natChars, dif_pos h]
    simp
  · rw [natChars, dif_neg h]
    simp

theorem digitsAcc_digits (ds : List Char) :
    ∀ (acc : Nat) (rest : List Char), (∀ c ∈ ds, isDigitCh c = true) →
      (∀ c t, rest = c :: t → isDigitCh c = false) →
      digitsAcc acc (ds ++ rest) =
        (ds.foldl (fun a c => a * 10 + digitVal c) acc, rest) := by
  induction ds with
  | nil =>
    intro acc rest _ hrest
    rcases rest with _ | ⟨c, t⟩
    · rfl
    · have hc := hrest c t rfl
      show digitsAcc acc (c :: t) = _
      unfold digitsAcc
      rw [if_neg (by simp [hc])]
      rfl
  | cons d t ih =>
    intro acc rest hds hrest
    show digitsAcc acc (d :: (t ++ rest)) = _
    unfold digitsAcc
    rw [if_pos (hds d (List.mem_cons_self _ _)),
      ih _ rest (fun c hc => hds c (List.mem_cons_of_mem _ hc)) hrest]
    rfl

theorem foldDigits_natChars (n : Nat) :
    (natChars n).foldl (fun a c => a * 10 + digitVal c) 0 = n := by
  induction n using Nat.strong_induction_on with
  | _ n ih =>
    by_cases h : n < 10
    · rw [natChars, dif_pos h]
      simp [digitVal_digitCh n h]
    · rw [natChars, dif_neg h, List.foldl_append,
        ih (n / 10) (Nat.div_lt_self (by omega) (by omega))]
      simp [digitVal_digitCh (n % 10) (Nat.mod_lt _ (by omega))]
      omega

theorem isDigitCh_props (c : Char) (h : isDigitCh c = true) :
    isJsonWs c = false ∧ c ≠ 'n' ∧ c ≠ 't' ∧ c ≠ 'f' ∧ c ≠ '"' ∧
    c ≠ '[' ∧ c ≠ lbrace ∧ c ≠ '-' ∧ c ≠ ']' ∧ c ≠ rbrace := by
  simp only [isDigitCh, Bool.or_eq_true, decide_eq_true_eq] at h
  rcases h with ((((((((h | h) | h) | h) | h) | h) | h) | h) | h) | h <;>
    subst h <;> decide

theorem parseNat_natChars (n : Nat) (rest : List Char)
    (hrest : ∀ c t, rest = c :: t → isDigitCh c = false) :
    parseNat (natChars n ++ rest) = some (n, rest) := by
  rcases hsh : natChars n with _ | ⟨c, t⟩
  · exact absurd hsh (natChars_ne_nil n)
  · have hc : isDigitCh c = true :=
      natChars_all_digits n c (hsh ▸ List.mem_cons_self c t)
    rw [List.cons_append,
      show parseNat (c :: (t ++ rest)) =
        if isDigitCh c then some (digitsAcc 0 (c :: (t ++ rest))) else none
        from rfl,
      if_pos hc,
      show c :: (t ++ rest) = natChars n ++ rest from
        by rw [hsh, List.cons_append],
      digitsAcc_digits (natChars n) 0 rest (natChars_all_digits n) hrest,
      foldDigits_natChars n]

theorem parseIntL_intChars (n : Int) (rest : List Char)
    (hrest : ∀ c t, rest = c :: t → isDigitCh c = false) :
    parseIntL (intChars n ++ rest) = some (n, rest) := by
  by_cases hn : n < 0
  · rw [intChars, if_pos hn, List.cons_append,
      show parseIntL ('-' :: (natChars n.natAbs ++ rest)) =
        (match parseNat (natChars n.natAbs ++ rest) with
         | some (m, rem) => some (-(m : Int), rem)
         | none => none) from rfl,
      parseNat_natChars n.natAbs rest hrest]
    show some (-((n.natAbs : Nat) : Int), rest) = some (n, rest)
    have hna : -((n.natAbs : Nat) : Int) = n := by omega
    rw [hna]
  · rw [intChars, if_neg hn]
    rcases hsh : natChars n.toNat with _ | ⟨c, t⟩
    · exact absurd hsh (natChars_ne_nil _)
    · have hc : isDigitCh c = true :=
        natChars_all_digits _ c (hsh ▸ List.mem_cons_self c t)
      have hcd : c ≠ '-' := (isDigitCh_props c hc).2.2.2.2.2.2.2.1
      unfold parseIntL
      split
      · rename_i rest2 heq
        rw [List.cons_append] at heq
        exact absurd (List.cons.injEq c (t ++ rest) '-' rest2 ▸ heq).1 hcd
      · rw [← hsh, parseNat_natChars n.toNat rest hrest]
        show some (((n.toNat : Nat) : Int), rest) = some (n, rest)
        have hna : ((n.toNat : Nat) : Int) = n := by omega
        rw [hna]

theorem jweight_pos (v : JVal) : 1 ≤ jweight v := by
  cases v <;> simp [jweight] <;> omega

theorem skipWs_cons (c : Char) (l : List Char) (h : isJsonWs c = false) :
    skipWs (c :: l) = c :: l := by
  simp [skipWs, List.dropWhile_cons, h]

theorem sepHead_not_digit (r : List Char) (h : sepHead r = true) :
    ∀ c t, r = c :: t → isDigitCh c = false := by
  intro c t hr
  subst hr
  simp only [sepHead, Bool.or_eq_true, decide_eq_true_eq] at h
  rcases h with (h | h) | h <;> subst h <;> decide

theorem intChars_head (n : Int) :
    ∃ c t, intChars n = c :: t ∧ (c = '-' ∨ isDigitCh c = true) := by
  rw [intChars]
  by_cases hn : n < 0
  · exact ⟨'-', _, by rw [if_pos hn], Or.inl rfl⟩
  · rw [if_neg hn]
    rcases hsh : natChars n.toNat with _ | ⟨c, t⟩
    · exact absurd hsh (natChars_ne_nil _)
    · exact ⟨c, t, rfl,
        Or.inr (natChars_all_digits _ c (hsh ▸ List.mem_cons_self c t))⟩

theorem renderJ_head (v : JVal) :
    ∃ c t, renderJ v = c :: t ∧ isJsonWs c = false ∧ c ≠ ']' ∧ c ≠ rbrace := by
  cases v with
  | null => exact ⟨'n', _, rfl, by decide, by decide, by decide⟩
  | bool b =>
    cases b
    · exact ⟨'f', _, rfl, by decide, by decide, by decide⟩
    · exact ⟨'t', _, rfl, by decide, by decide, by decide⟩
  | int n =>
    obtain ⟨c, t, hct, hc⟩ := intChars_head n
    refine ⟨c, t, hct, ?_, ?_, ?_⟩ <;>
      rcases hc with hc | hc
    · subst hc; decide
    · exact (isDigitCh_props c hc).1
    · subst hc; decide
    · exact (isDigitCh_props c hc).2.2.2.2.2.2.2.2.1
    · subst hc; decide
    · exact (isDigitCh_props c hc).2.2.2.2.2.2.2.2.2
  | str s => exact ⟨'"', _, rfl, by decide, by decide, by decide⟩
  | arr xs => exact ⟨'[', _, rfl, by decide, by decide, by decide⟩
  | obj fs => exact ⟨lbrace, _, rfl, by decide, by decide, by decide⟩

theorem nodupKeysB_split (ks : List String) (k : String) (ks2 : List String)
    (h : nodupKeysB (ks ++ k :: ks2) = true) : ¬k ∈ ks := by
  induction ks with
  | nil => simp
  | cons a t ih =>
    rw [List.cons_append] at h
    have h1 : (!(t ++ k :: ks2).contains a) = true ∧
        nodupKeysB (t ++ k :: ks2) = true := by
      simpa [nodupKeysB, Bool.and_eq_true] using h
    intro hmem
    rcases List.mem_cons.1 hmem with hk | hk
    · subst hk
      have : (t ++ k :: ks2).contains k = true := by
        rw [List.contains_eq_any_beq]
        simp
      rw [this] at h1
      exact absurd h1.1 (by decide)
    · exact ih h1.2 hk

/-! ### Step equations of the fueled parser (definitional) -/

theorem parseVal_succ_str (fuel : Nat) (l : List Char) :
    parseVal (fuel + 1) ('"' :: l) =
      match parseStrBody l with
      | some (body, rem) => some (.str (String.mk body), rem)
      | none => none := rfl

theorem parseVal_succ_arr (fuel : Nat) (l : List Char) :
    parseVal (fuel + 1) ('[' :: l) =
      match skipWs l with
      | ']' :: rem => some (.arr [], rem)
      | rest' => parseItemsF fuel rest' [] := rfl

theorem parseVal_succ_obj_mem (fuel : Nat) (l : List Char) :
    parseVal (fuel + 1) (lbrace :: '"' :: l) =
      parseMembersF fuel ('"' :: l) [] := rfl

theorem parseItemsF_succ (fuel : Nat) (cs : List Char) (acc : List JVal) :
    parseItemsF (fuel + 1) cs acc =
      match parseVal fuel cs with
      | none => none
      | some (v, rest) =>
        match skipWs rest with
        | ',' :: rest' => parseItemsF fuel rest' (acc ++ [v])
        | ']' :: rest' => some (.arr (acc ++ [v]), rest')
        | _ => none := rfl

theorem parseMembersF_succ (fuel : Nat) (l : List Char)
    (acc : List (String × JVal)) :
    parseMembersF (fuel + 1) ('"' :: l) acc =
      match parseStrBody l with
      | none => none
      | some (key, rest') =>
        match skipWs rest' with
        | ':' :: rest'' =>
          match parseVal fuel rest'' with
          | none => none
          | some (v, rem) =>
            match skipWs rem with
            | ',' :: rem' => parseMembersF fuel rem' (dictSet acc (String.mk key) v)
            | r :: rem' =>
              if r = rbrace then some (.obj (dictSet acc (String.mk key) v), rem')
              else none
            | [] => none
        | _ => none := rfl

theorem parseVal_succ_num (fuel : Nat) (c : Char) (l : List Char)
    (hws : isJsonWs c = false) (h1 : c ≠ 'n') (h2 : c ≠ 't') (h3 : c ≠ 'f')
    (h4 : c ≠ '"') (h5 : c ≠ '[') (h6 : c ≠ lbrace) :
    parseVal (fuel + 1) (c :: l) =
      if (c = '-' || isDigitCh c : Bool) then
        match parseIntL (c :: l) with
        | some (n, rem) => some (.int n, rem)
        | none => none
      else none := by
  conv_lhs => rw [parseVal.eq_def]
  simp only [skipWs_cons c l hws]
  simp [h1, h2, h3, h4, h5, h6]

theorem parseVal_succ_arr_head (fuel : Nat) (c : Char) (l : List Char)
    (hws : isJsonWs c = false) (hne : c ≠ ']') :
    parseVal (fuel + 1) ('[' :: c :: l) = parseItemsF fuel (c :: l) [] := by
  rw [parseVal_succ_arr, skipWs_cons c l hws]
  split
  · rename_i rem heq
    exact absurd (List.cons.injEq c l ']' rem ▸ heq).1 hne
  · rfl
theorem parse_render_rt (fuel : Nat) :
    (∀ v rest, jwf v = true → jweight v ≤ fuel → sepHead rest = true →
      parseVal fuel (renderJ v ++ rest) = some (v, rest)) ∧
    (∀ xs acc rest, jwfItems xs = true → jweightItems xs + 1 ≤ fuel →
      xs ≠ [] →
      parseItemsF fuel (renderItems xs ++ ']' :: rest) acc =
        some (.arr (acc ++ xs), rest)) ∧
    (∀ fs acc rest, jwfMembers fs = true → jweightMembers fs + 1 ≤ fuel →
      fs ≠ [] → nodupKeysB (dictKeys acc ++ fs.map (·.1)) = true →
      parseMembersF fuel (renderMembers fs ++ rbrace :: rest) acc =
        some (.obj (acc ++ fs), rest)) := by
  induction fuel with
  | zero =>
    refine ⟨?_, ?_, ?_⟩
    · intro v rest _ hw _
      exact absurd hw (by have := jweight_pos v; omega)
    · intro xs acc rest _ hw _
      omega
    · intro fs acc rest _ hw _ _
      omega
  | succ fuel ih =>
    obtain ⟨ihV, ihI, ihM⟩ := ih
    refine ⟨?_, ?_, ?_⟩
    · intro v rest hwf hw hsep
      cases v with
      | null => rfl
      | bool b => cases b <;> rfl
      | str s =>
        rw [show renderJ (.str s) ++ rest =
            '"' :: (escChars s.data ++ '"' :: rest) from by
          simp [renderJ, renderStr, List.cons_append, List.append_assoc]]
        rw [parseVal_succ_str, parseStrBody_escChars]
      | int n =>
        obtain ⟨c, t, hct, hc⟩ := intChars_head n
        have hprops : isJsonWs c = false ∧ c ≠ 'n' ∧ c ≠ 't' ∧ c ≠ 'f' ∧
            c ≠ '"' ∧ c ≠ '[' ∧ c ≠ lbrace ∧
            (c = '-' || isDigitCh c : Bool) = true := by
          rcases hc with hc | hc
          · subst hc
            exact ⟨by decide, by decide, by decide, by decide, by decide,
              by decide, by decide, by decide⟩
          · obtain ⟨w1, w2, w3, w4, w5, w6, w7, _⟩ := isDigitCh_props c hc
            exact ⟨w1, w2, w3, w4, w5, w6, w7, by simp [hc]⟩
        rw [show renderJ (.int n) ++ rest = c :: (t ++ rest) from by
          simp [renderJ, hct]]
        rw [parseVal_succ_num fuel c (t ++ rest) hprops.1 hprops.2.1
          hprops.2.2.1 hprops.2.2.2.1 hprops.2.2.2.2.1 hprops.2.2.2.2.2.1
          hprops.2.2.2.2.2.2.1,
          if_pos hprops.2.2.2.2.2.2.2]
        rw [show c :: (t ++ rest) = intChars n ++ rest from by simp [hct]]
        rw [parseIntL_intChars n rest (sepHead_not_digit rest hsep)]
      | arr xs =>
        cases xs with
        | nil => rfl
        | cons x t =>
          have hwx : jwfItems (x :: t) = true := by simpa [jwf] using hwf
          have hwt : jweightItems (x :: t) + 1 ≤ fuel := by
            simp [jweight] at hw; omega
          obtain ⟨c, ct, hud, hnws, hne1, hne2⟩ := renderJ_head x
          obtain ⟨l2, hl2⟩ : ∃ l2, renderItems (x :: t) = renderJ x ++ l2 := by
            cases t with
            | nil => exact ⟨[], by simp [renderItems]⟩
            | cons y t2 =>
              exact ⟨',' :: renderItems (y :: t2),
                by simp [renderItems, List.cons_append, List.append_assoc]⟩
          have hL : renderItems (x :: t) ++ ']' :: rest =
              c :: (ct ++ (l2 ++ ']' :: rest)) := by
            rw [hl2, hud]
            simp [List.cons_append, List.append_assoc]
          rw [show renderJ (.arr (x :: t)) ++ rest =
              '[' :: (renderItems (x :: t) ++ ']' :: rest) from by
            simp [renderJ, List.cons_append, List.append_assoc]]
          rw [hL, parseVal_succ_arr_head fuel c (ct ++ (l2 ++ ']' :: rest))
            hnws hne1, ← hL]
          rw [ihI (x :: t) [] rest hwx hwt (by simp)]
          simp
      | obj fs =>
        cases fs with
        | nil => rfl
        | cons f t =>
          have hsplit : nodupKeysB ((f :: t).map (·.1)) = true ∧
              jwfMembers (f :: t) = true := by
            simpa [jwf] using hwf
          have hnd := hsplit.1
          have hwm := hsplit.2
          have hwt : jweightMembers (f :: t) + 1 ≤ fuel := by
            simp [jweight] at hw; omega
          obtain ⟨X, hX⟩ : ∃ X, renderMembers (f :: t) =
              renderStr f.1 ++ X := by
            cases t with
            | nil => exact ⟨':' :: renderJ f.2, by simp [renderMembers]⟩
            | cons g t2 =>
              exact ⟨':' :: (renderJ f.2 ++ ',' :: renderMembers (g :: t2)),
                by simp [renderMembers, List.cons_append, List.append_assoc]⟩
          have hL : renderMembers (f :: t) ++ rbrace :: rest =
              '"' :: (escChars f.1.data ++ ('"' :: (X ++ rbrace :: rest))) := by
            rw [hX, renderStr]
            simp [List.cons_append, List.append_assoc]
          rw [show renderJ (.obj (f :: t)) ++ rest =
              lbrace :: (renderMembers (f :: t) ++ rbrace :: rest) from by
            simp [renderJ, List.cons_append, List.append_assoc]]
          rw [hL, parseVal_succ_obj_mem, ← hL]
          rw [ihM (f :: t) [] rest hwm hwt (by simp)
            (by simpa [dictKeys] using hnd)]
          simp
    · intro xs acc rest hwf hw hne
      cases xs with
      | nil => exact absurd rfl hne
      | cons x t =>
        have hjx : jwf x = true ∧ jwfItems t = true := by
          simpa [jwfItems] using hwf
        have hwx : jweight x ≤ fuel := by
          simp [jweightItems] at hw; omega
        cases t with
        | nil =>
          rw [show renderItems [x] ++ ']' :: rest = renderJ x ++ ']' :: rest
              from by simp [renderItems]]
          rw [parseItemsF_succ,
            ihV x (']' :: rest) hjx.1 hwx (by simp [sepHead])]
          rfl
        | cons y t2 =>
          have hwy : jweightItems (y :: t2) + 1 ≤ fuel := by
            have hp := jweight_pos x
            simp [jweightItems] at hw ⊢
            omega
          rw [show renderItems (x :: y :: t2) ++ ']' :: rest =
              renderJ x ++ ',' :: (renderItems (y :: t2) ++ ']' :: rest)
              from by simp [renderItems, List.cons_append, List.append_assoc]]
          rw [parseItemsF_succ,
            ihV x (',' :: (renderItems (y :: t2) ++ ']' :: rest)) hjx.1 hwx
              (by simp [sepHead])]
          show parseItemsF fuel (renderItems (y :: t2) ++ ']' :: rest)
              (acc ++ [x]) = some (.arr (acc ++ x :: y :: t2), rest)
          rw [ihI (y :: t2) (acc ++ [x]) rest hjx.2 hwy (by simp)]
          simp
    · intro fs acc rest hwf hw hne hnd
      cases fs with
      | nil => exact absurd rfl hne
      | cons f t =>
        have hjf : jwf f.2 = true ∧ jwfMembers t = true := by
          simpa [jwfMembers] using hwf
        have hwv : jweight f.2 ≤ fuel := by
          simp [jweightMembers] at hw; omega
        have hks : ¬f.1 ∈ dictKeys acc := by
          have h2 : nodupKeysB (dictKeys acc ++ f.1 :: t.map (·.1)) = true := by
            simpa using hnd
          exact nodupKeysB_split (dictKeys acc) f.1 (t.map (·.1)) h2
        cases t with
        | nil =>
          rw [show renderMembers [f] ++ rbrace :: rest =
              '"' :: (escChars f.1.data ++
                '"' :: (':' :: (renderJ f.2 ++ rbrace :: rest)))
              from by
            simp [renderMembers, renderStr, List.cons_append, List.append_assoc]]
          rw [parseMembersF_succ, parseStrBody_escChars]
          show (match parseVal fuel (renderJ f.2 ++ rbrace :: rest) with
            | none => none
            | some (v, rem) =>
              match skipWs rem with
              | ',' :: rem' =>
                parseMembersF fuel rem' (dictSet acc (String.mk f.1.data) v)
              | r :: rem' =>
                if r = rbrace then
                  some (.obj (dictSet acc (String.mk f.1.data) v), rem')
                else none
              | [] => none) = some (.obj (acc ++ [f]), rest)
          rw [ihV f.2 (rbrace :: rest) hjf.1 hwv (by simp [sepHead])]
          show some (JVal.obj (dictSet acc f.1 f.2), rest) =
            some (JVal.obj (acc ++ [f]), rest)
          rw [dictSet_of_not_mem acc f.1 f.2 hks]
        | cons g t2 =>
          have hwy : jweightMembers (g :: t2) + 1 ≤ fuel := by
            have hp := jweight_pos f.2
            simp [jweightMembers] at hw ⊢
            omega
          rw [show renderMembers (f :: g :: t2) ++ rbrace :: rest =
              '"' :: (escChars f.1.data ++ '"' :: (':' :: (renderJ f.2 ++
                ',' :: (renderMembers (g :: t2) ++ rbrace :: rest))))
              from by
            simp [renderMembers, renderStr, List.cons_append, List.append_assoc]]
          rw [parseMembersF_succ, parseStrBody_escChars]
          show (match parseVal fuel (renderJ f.2 ++
              ',' :: (renderMembers (g :: t2) ++ rbrace :: rest)) with
            | none => none
            | some (v, rem) =>
              match skipWs rem with
              | ',' :: rem' =>
                parseMembersF fuel rem' (dictSet acc (String.mk f.1.data) v)
              | r :: rem' =>
                if r = rbrace then
                  some (.obj (dictSet acc (String.mk f.1.data) v), rem')
                else none
              | [] => none) = some (.obj (acc ++ f :: g :: t2), rest)
          rw [ihV f.2 (',' :: (renderMembers (g :: t2) ++ rbrace :: rest))
            hjf.1 hwv (by simp [sepHead])]
          show parseMembersF fuel (renderMembers (g :: t2) ++ rbrace :: rest)
              (dictSet acc f.1 f.2) = some (.obj (acc ++ f :: g :: t2), rest)
          rw [dictSet_of_not_mem acc f.1 f.2 hks]
          rw [ihM (g :: t2) (acc ++ [(f.1, f.2)]) rest hjf.2 hwy (by simp)
            (by simpa [dictKeys, List.map_append, List.append_assoc] using hnd)]
          simp
theorem weight_bound_aux (N : Nat) :
    (∀ v, jweight v ≤ N → jweight v ≤ 2 * (renderJ v).length) ∧
    (∀ xs, jweightItems xs ≤ N →
      jweightItems xs ≤ 2 * (renderItems xs).length + 1) ∧
    (∀ fs, jweightMembers fs ≤ N →
      jweightMembers fs ≤ 2 * (renderMembers fs).length + 1) := by
  induction N with
  | zero =>
    refine ⟨?_, ?_, ?_⟩
    · intro v hv
      exact absurd hv (by have := jweight_pos v; omega)
    · intro xs hxs
      cases xs with
      | nil => simp [jweightItems]
      | cons x t =>
        exact absurd hxs
          (by have := jweight_pos x; simp only [jweightItems]; omega)
    · intro fs hfs
      cases fs with
      | nil => simp [jweightMembers]
      | cons f t =>
        exact absurd hfs
          (by have := jweight_pos f.2; simp only [jweightMembers]; omega)
  | succ N ih =>
    obtain ⟨ihV, ihI, ihM⟩ := ih
    refine ⟨?_, ?_, ?_⟩
    · intro v hv
      cases v with
      | null => simp [jweight, renderJ]
      | bool b => cases b <;> simp [jweight, renderJ]
      | int n =>
        obtain ⟨c, t, hct, _⟩ := intChars_head n
        simp [jweight, renderJ, hct]
        omega
      | str s =>
        simp [jweight, renderStr, renderJ]
        omega
      | arr xs =>
        have h1 : jweightItems xs ≤ N := by
          simp [jweight] at hv; omega
        have h2 := ihI xs h1
        simp [jweight, renderJ] at hv ⊢
        omega
      | obj fs =>
        have h1 : jweightMembers fs ≤ N := by
          simp [jweight] at hv; omega
        have h2 := ihM fs h1
        simp [jweight, renderJ] at hv ⊢
        omega
    · intro xs hxs
      cases xs with
      | nil => simp [jweightItems]
      | cons x t =>
        have hx : jweight x ≤ N := by
          simp [jweightItems] at hxs; omega
        have h1 := ihV x hx
        cases t with
        | nil =>
          simp [jweightItems, renderItems] at h1 ⊢
          omega
        | cons y t2 =>
          have hy : jweightItems (y :: t2) ≤ N := by
            have := jweight_pos x
            simp [jweightItems] at hxs ⊢
            omega
          have h2 := ihI (y :: t2) hy
          simp [jweightItems, renderItems] at h1 h2 ⊢
          omega
    · intro fs hfs
      cases fs with
      | nil => simp [jweightMembers]
      | cons f t =>
        have hx : jweight f.2 ≤ N := by
          simp [jweightMembers] at hfs; omega
        have h1 := ihV f.2 hx
        cases t with
        | nil =>
          simp [jweightMembers, renderMembers, renderStr] at h1 ⊢
          omega
        | cons g t2 =>
          have hy : jweightMembers (g :: t2) ≤ N := by
            have := jweight_pos f.2
            simp [jweightMembers] at hfs ⊢
            omega
          have h2 := ihM (g :: t2) hy
          simp [jweightMembers, renderMembers, renderStr] at h1 h2 ⊢
          omega

theorem jsonLoads_renderJ (v : JVal) (hwf : jwf v = true) :
    jsonLoads (renderJ v) = some v := by
  have hb : jweight v ≤ 2 * (renderJ v).length :=
    (weight_bound_aux (jweight v)).1 v le_rfl
  have h := (parse_render_rt (2 * (renderJ v).length)).1 v [] hwf hb rfl
  rw [List.append_nil] at h
  unfold jsonLoads
  rw [h]
  rfl
theorem startsWithL_append_self (p x : List Char) :
    startsWithL p (p ++ x) = true := by
  induction p with
  | nil => rfl
  | cons c t ih => simp [startsWithL, ih]

theorem findSubAux_cons_no (needle : List Char) (c : Char) (t : List Char)
    (i : Nat) (h : startsWithL needle (c :: t) = false) :
    findSubAux needle (c :: t) i = findSubAux needle t (i + 1) := by
  rw [findSubAux.eq_def]
  simp [h]

theorem findSubAux_hit (needle hay : List Char) (i : Nat)
    (h : startsWithL needle hay = true) :
    findSubAux needle hay i = some i := by
  rw [findSubAux.eq_def]
  simp [h]

theorem findSubAux_walk (needle suf : List Char) :
    ∀ pre i, (∀ p q, pre = p ++ q → q ≠ [] →
      startsWithL needle (q ++ suf) = false) →
    findSubAux needle (pre ++ suf) i = findSubAux needle suf (i + pre.length) := by
  intro pre
  induction pre with
  | nil => intro i _; simp
  | cons c t ih =>
    intro i h
    rw [List.cons_append,
      findSubAux_cons_no needle c (t ++ suf) i
        (by
          have := h [] (c :: t) rfl (by simp)
          simpa using this),
      ih (i + 1) (fun p q hp hq => h (c :: p) q (by rw [hp]; rfl) hq)]
    congr 1
    simp [List.length_cons]
    omega

theorem findSubAux_none_no_hit (needle : List Char) :
    ∀ p q i, findSubAux needle (p ++ q) i = none →
    startsWithL needle q = false := by
  intro p
  induction p with
  | nil =>
    intro q i h
    rw [findSubAux.eq_def] at h
    by_cases hs : startsWithL needle q = true
    · rw [List.nil_append] at h
      simp [hs] at h
    · exact Bool.not_eq_true _ ▸ hs
  | cons c t ih =>
    intro q i h
    rw [List.cons_append, findSubAux.eq_def] at h
    by_cases hs : startsWithL needle (c :: (t ++ q)) = true
    · simp [hs] at h
    · simp only [hs, if_false, Bool.false_eq_true] at h
      exact ih q (i + 1) h
theorem startsWithL_fence3_nl (l : List Char) :
    startsWithL fence3 ('\n' :: l) = false := rfl

theorem startsWithL_fence3_nl2 (x : Char) (l : List Char) :
    startsWithL fence3 (x :: '\n' :: l) = false := by
  rw [show startsWithL fence3 (x :: '\n' :: l) =
    (decide (btick = x) && (decide (btick = '\n') &&
      startsWithL [btick] l)) from rfl]
  rw [show (decide (btick = '\n')) = false from rfl]
  simp

theorem startsWithL_fence3_nl3 (x y : Char) (l : List Char) :
    startsWithL fence3 (x :: y :: '\n' :: l) = false := by
  rw [show startsWithL fence3 (x :: y :: '\n' :: l) =
    (decide (btick = x) && (decide (btick = y) &&
      (decide (btick = '\n') && startsWithL ([] : List Char) l))) from rfl]
  rw [show (decide (btick = '\n')) = false from rfl]
  simp

theorem startsWithL_fence3_tail (x y z : Char) (l l' : List Char) :
    startsWithL fence3 (x :: y :: z :: l) =
      startsWithL fence3 (x :: y :: z :: l') := rfl

theorem pyContains_false_none (hay needle : List Char)
    (h : pyContains hay needle = false) :
    findSubAux needle hay 0 = none := by
  rcases hf : findSubAux needle hay 0 with _ | i
  · rfl
  · exfalso
    rw [pyContains, pyFind, hf] at h
    simp at h
theorem pre_no_hit (J : List Char) (hJ : pyContains J fence3 = false) :
    ∀ p q, ('\n' :: (J ++ ['\n'])) = p ++ q → q ≠ [] →
      startsWithL fence3 (q ++ fence3) = false := by
  have hnone : findSubAux fence3 J 0 = none := pyContains_false_none J fence3 hJ
  intro p q hpq hq
  cases p with
  | nil =>
    rw [List.nil_append] at hpq
    subst hpq
    rw [List.cons_append]
    exact startsWithL_fence3_nl _
  | cons c p' =>
    rw [List.cons_append] at hpq
    have hsplit : J ++ ['\n'] = p' ++ q := (List.cons.injEq _ _ _ _ ▸ hpq).2
    rcases List.append_eq_append_iff.1 hsplit with ⟨a', ha1, ha2⟩ | ⟨w, hw1, hw2⟩
    · -- ['\n'] = a' ++ q  (J = p' ++ a')
      rcases a' with _ | ⟨d, a''⟩
      · rw [List.nil_append] at ha2
        subst ha2
        rw [List.cons_append]
        exact startsWithL_fence3_nl _
      · -- d :: a'' ++ q = ['\n'] with q ≠ [] forces q = [], contradiction
        have hq0 : a'' = [] ∧ q = [] := by
          have := congrArg List.length ha2
          simpa using this
        exact absurd hq0.2 hq
    · -- J = p' ++ w, q = w ++ ['\n']
      subst hw2
      rcases w with _ | ⟨x, w1⟩
      · rw [List.nil_append, List.cons_append, List.nil_append]
        exact startsWithL_fence3_nl _
      rcases w1 with _ | ⟨y, w2⟩
      · rw [show (x :: ([] : List Char) ++ ['\n']) ++ fence3 =
          x :: '\n' :: fence3 from rfl]
        exact startsWithL_fence3_nl2 _ _
      rcases w2 with _ | ⟨z, w3⟩
      · rw [show ((x :: y :: ([] : List Char)) ++ ['\n']) ++ fence3 =
          x :: y :: '\n' :: fence3 from rfl]
        exact startsWithL_fence3_nl3 _ _ _
      · -- w = x :: y :: z :: w3, a suffix of J
        have hsw : startsWithL fence3 (x :: y :: z :: w3) = false := by
          rw [hw1] at hnone
          exact findSubAux_none_no_hit fence3 p' (x :: y :: z :: w3) 0 hnone
        rw [show ((x :: y :: z :: w3) ++ ['\n']) ++ fence3 =
          x :: y :: z :: (w3 ++ '\n' :: fence3) from by simp]
        rw [startsWithL_fence3_tail x y z (w3 ++ '\n' :: fence3) w3]
        exact hsw
theorem pyStripL_obj_wrap (M : List Char) :
    pyStripL ('\n' :: ((lbrace :: (M ++ [rbrace])) ++ ['\n'])) =
      lbrace :: (M ++ [rbrace]) := by
  have h1 : isPyWs '\n' = true := rfl
  have h2 : isPyWs lbrace = false := rfl
  have h3 : isPyWs rbrace = false := rfl
  rw [pyStripL]
  rw [List.dropWhile_cons, if_pos h1, List.cons_append,
    List.dropWhile_cons, if_neg (by rw [h2]; simp)]
  rw [show (lbrace :: ((M ++ [rbrace]) ++ ['\n'])).reverse =
    '\n' :: ((rbrace :: M.reverse) ++ [lbrace]) from by simp]
  rw [List.dropWhile_cons, if_pos h1, List.cons_append,
    List.dropWhile_cons, if_neg (by rw [h3]; simp)]
  simp
theorem startsWithL_fence3_self : startsWithL fence3 fence3 = true := rfl

theorem extractCandidate_fenced (M : List Char)
    (hnf : pyContains (lbrace :: (M ++ [rbrace])) fence3 = false) :
    extractCandidate
      (fenceJson ++ '\n' :: ((lbrace :: (M ++ [rbrace])) ++ '\n' :: fence3)) =
      lbrace :: (M ++ [rbrace]) := by
  set J : List Char := lbrace :: (M ++ [rbrace]) with hJ
  set raw : List Char := fenceJson ++ '\n' :: (J ++ '\n' :: fence3) with hraw
  set pre : List Char := '\n' :: (J ++ ['\n']) with hpre
  have hshape : raw = fenceJson ++ (pre ++ fence3) := by
    rw [hraw, hpre]
    simp
  have hfind0 : findSubAux fenceJson raw 0 = some 0 := by
    rw [hraw]
    exact findSubAux_hit _ _ 0 (startsWithL_append_self _ _)
  have hpf : pyFind raw fenceJson = 0 := by
    rw [pyFind, hfind0]
    simp
  have hcontains : pyContains raw fenceJson = true := by
    rw [pyContains, pyFind, hfind0]
    rfl
  have hdrop : raw.drop 7 = pre ++ fence3 := by
    rw [hshape, show (7 : Nat) = fenceJson.length from rfl, List.drop_left]
  have hwalk : findSubAux fence3 (pre ++ fence3) 7 = some (7 + pre.length) := by
    rw [findSubAux_walk fence3 fence3 pre 7 (pre_no_hit J hnf),
      findSubAux_hit _ _ _ startsWithL_fence3_self]
  have hpff : pyFindFrom raw fence3 7 = ((7 + pre.length : Nat) : Int) := by
    rw [pyFindFrom, hdrop, hwalk]
  have hlen7 : (fenceJson ++ pre).length = 7 + pre.length := by
    rw [List.length_append, show fenceJson.length = 7 from rfl]
  have hslice : pySlice raw 7 ((7 + pre.length : Nat) : Int) = pre := by
    rw [pySlice]
    rw [if_neg (by omega)]
    rw [show (((7 + pre.length : Nat) : Int)).toNat = (fenceJson ++ pre).length
      from by rw [hlen7]; omega]
    rw [hshape, ← List.append_assoc, List.take_left,
      show (7 : Nat) = fenceJson.length from rfl, List.drop_left]
  simp only [extractCandidate]
  rw [hpf, if_pos hcontains,
    show ((0 : Int) + 7).toNat = 7 from rfl, hpff, hslice, hpre, hJ]
  exact pyStripL_obj_wrap M
theorem dropWhile_eq_self_of_head (p : Char → Bool) (l : List Char)
    (h : ∀ c t, l = c :: t → p c = false) : l.dropWhile p = l := by
  cases l with
  | nil => rfl
  | cons c t => rw [List.dropWhile_cons, if_neg (by rw [h c t rfl]; simp)]

theorem pyStripL_id (cs : List Char)
    (h1 : ∀ c t, cs = c :: t → isPyWs c = false)
    (h2 : ∀ c t, cs.reverse = c :: t → isPyWs c = false) :
    pyStripL cs = cs := by
  rw [pyStripL, dropWhile_eq_self_of_head _ cs h1,
    dropWhile_eq_self_of_head _ cs.reverse h2, List.reverse_reverse]

theorem encodeTriple_data (a b : String) (c : Option (List (String × JVal))) :
    (encodeTriple a b c).data =
      fenceJson ++ '\n' :: (renderJ (tripleObj a b c) ++ '\n' :: fence3) := rfl

theorem encodeTriple_strip (a b : String) (c : Option (List (String × JVal))) :
    pyStripL (encodeTriple a b c).data = (encodeTriple a b c).data := by
  have hcons : (encodeTriple a b c).data = btick ::
      (([btick, btick, 'j', 's', 'o', 'n'] : List Char) ++
        ('\n' :: (renderJ (tripleObj a b c) ++ '\n' :: fence3))) := rfl
  have hsh2 : (encodeTriple a b c).data =
      (fenceJson ++ ('\n' :: (renderJ (tripleObj a b c) ++ ['\n']))) ++
        fence3 := by
    rw [encodeTriple_data]
    simp
  have hrev : (encodeTriple a b c).data.reverse = btick :: (btick :: btick ::
      (fenceJson ++ ('\n' :: (renderJ (tripleObj a b c) ++ ['\n']))).reverse)
      := by
    rw [hsh2, List.reverse_append]
    rfl
  apply pyStripL_id
  · intro ch t h
    rw [hcons] at h
    injection h with e1 _
    rw [← e1]
    rfl
  · intro ch t h
    rw [hrev] at h
    injection h with e1 _
    rw [← e1]
    rfl
/-- C5 (amended): when the compact rendering of the JSON object holding
the triple contains no triple-backtick fence and every object in the
triple has pairwise-distinct keys, encoding the triple as a fenced
structured-data block and applying `parse_llm_response` returns the three
field values unchanged. -/
theorem parse_llm_response_roundtrip (a b : String)
    (c : Option (List (String × JVal)))
    (hwf : jwf (tripleObj a b c) = true)
    (hfence : pyContains (renderJ (tripleObj a b c)) fence3 = false) :
    (parse_llm_response (encodeTriple a b c)).enhanced_text = a ∧
    (parse_llm_response (encodeTriple a b c)).design_intent = b ∧
    (parse_llm_response (encodeTriple a b c)).canva_instructions = c := by
  obtain ⟨M, hM⟩ : ∃ M, renderJ (tripleObj a b c) =
      lbrace :: (M ++ [rbrace]) :=
    ⟨renderMembers [("enhanced_text", .str a), ("design_intent", .str b),
      ("canva_instructions", instrVal c)],
     by cases c <;> simp [tripleObj, renderJ, instrVal]⟩
  have hfence2 : pyContains (lbrace :: (M ++ [rbrace])) fence3 = false := by
    rw [← hM]
    exact hfence
  have hcand : extractCandidate (pyStripL (encodeTriple a b c).data) =
      lbrace :: (M ++ [rbrace]) := by
    rw [encodeTriple_strip, encodeTriple_data, hM]
    exact extractCandidate_fenced M hfence2
  have hload : jsonLoads (lbrace :: (M ++ [rbrace])) =
      some (tripleObj a b c) := by
    rw [← hM]
    exact jsonLoads_renderJ _ hwf
  have hobj : tripleObj a b c =
      JVal.obj [("enhanced_text", .str a), ("design_intent", .str b),
        ("canva_instructions", instrVal c)] := by
    cases c <;> rfl
  simp only [parse_llm_response]
  rw [hcand, if_pos (show startsWithL [lbrace] (lbrace :: (M ++ [rbrace]))
      = true from rfl),
    hload, hobj]
  cases c with
  | none => exact ⟨rfl, rfl, rfl⟩
  | some g => exact ⟨rfl, rfl, rfl⟩

/-- C5 counterexample: a triple whose `enhanced_text` itself contains a
triple-backtick fence does not round-trip: the fence extraction cuts the
candidate at the inner fence, the malformed candidate fails to parse, and
the fallback returns the whole stripped fenced block instead of the
original text. -/
theorem parse_roundtrip_fence_in_content :
    (parse_llm_response (encodeTriple "x```y" "" none)).enhanced_text ≠
      "x```y" := by decide

/-- Witness: the amended round-trip theorem applied to a concrete
fence-free triple with a non-empty instructions dict. -/
theorem parse_llm_response_roundtrip_witness :
    jwf (tripleObj "hello" "poster" (some [("color", JVal.str "red")])) =
      true ∧
    pyContains (renderJ (tripleObj "hello" "poster"
      (some [("color", JVal.str "red")]))) fence3 = false ∧
    ((parse_llm_response (encodeTriple "hello" "poster"
        (some [("color", JVal.str "red")]))).enhanced_text = "hello" ∧
     (parse_llm_response (encodeTriple "hello" "poster"
        (some [("color", JVal.str "red")]))).design_intent = "poster" ∧
     (parse_llm_response (encodeTriple "hello" "poster"
        (some [("color", JVal.str "red")]))).canva_instructions =
        some [("color", JVal.str "red")]) :=
  ⟨by decide, by decide,
   parse_llm_response_roundtrip "hello" "poster"
     (some [("color", JVal.str "red")]) (by decide) (by decide)⟩
